import Mathlib

/-!
Verification development for the PolymarketTrading repository.

We give a shallow embedding of the market-lifecycle engine and the
grid-hedge strategy evaluators, and settle the specification claims
against it.

Prices are modelled as rationals (the source uses JS numbers holding
two-decimal quote prices), timestamps as naturals.  The two grid-hedge
evaluators are embedded separately:

* `Frontend` mirrors src/frontend/src/utils/strategyCalculator.ts
  (grid-level state machine over exact grid-level matches);
* `Backend` mirrors the grid-hedge calculator in the backend strategy
  controller (crossing predicates over consecutive observations).
-/

namespace PolymarketTrading

/-- Outcome token side of a binary contract ("up"/"down"). -/
inductive TokenType where
  | up
  | down
deriving DecidableEq

/-- The opposite outcome token, mirroring the sources'
`tokenType === 'up' ? 'down' : 'up'`. -/
def TokenType.opposite : TokenType → TokenType
  | .up => .down
  | .down => .up

/-- JavaScript `Math.round`: round half toward positive infinity,
i.e. `⌊x + 1/2⌋`. -/
def jsRound (q : ℚ) : ℤ := ⌊q + 1/2⌋

namespace Frontend

/-- One recorded price observation
(strategyCalculator.ts, `PriceData`; `slug`/`createdAt` are not used by
the calculator and are omitted). -/
structure PriceData where
  timestamp : Nat
  upTokenPrice : ℚ
  downTokenPrice : ℚ
deriving DecidableEq

/-- An entry order (strategyCalculator.ts, `Order`). -/
structure Order where
  price : ℚ
  timestamp : Nat
  size : ℚ
  tokenType : TokenType
  isReEntry : Bool
deriving DecidableEq

/-- A hedge order (strategyCalculator.ts, `HedgeOrder`); `timestamp` is
`none` until the hedge fills. -/
structure HedgeOrder where
  price : ℚ
  timestamp : Option Nat
  size : ℚ
  tokenType : TokenType
  isFilled : Bool
deriving DecidableEq

/-- An entry/hedge pair, created atomically
(strategyCalculator.ts, `OrderPair`). -/
structure OrderPair where
  entryOrder : Order
  hedgeOrder : HedgeOrder
deriving DecidableEq

/-- Per-grid-level evaluator state (strategyCalculator.ts,
`GridLevelState`).  `lastGridLevelCrossed` is initialised to `null` and
never written by the source, and is kept here for fidelity. -/
structure GridLevelState where
  hasEntered : Bool
  hedgeFilled : Bool
  lastGridLevelCrossed : Option ℚ
  orderPairs : List OrderPair
deriving DecidableEq

/-- The state every grid level starts in. -/
def initialGridLevelState : GridLevelState :=
  { hasEntered := false, hedgeFilled := false,
    lastGridLevelCrossed := none, orderPairs := [] }

/-- Number of iterations of the source's
`for (level = 50 + gridGap; level <= maxTotalCost; level += gridGap)`
loop; meaningful for `0 < gridGap` (the loop does not terminate
otherwise). -/
def gridLevelCount (gridGap maxTotalCost : ℚ) : Nat :=
  if 50 + gridGap ≤ maxTotalCost then
    (⌊(maxTotalCost - (50 + gridGap)) / gridGap⌋).toNat + 1
  else 0

/-- Grid levels in cents (strategyCalculator.ts, `getGridLevels`):
`50+gridGap, 50+2*gridGap, …` up to `maxTotalCost`, as the closed form
of the source loop. -/
def getGridLevels (gridGap maxTotalCost : ℚ) : List ℚ :=
  (List.range (gridLevelCount gridGap maxTotalCost)).map
    (fun i => 50 + gridGap + gridGap * i)

/-- First grid level exactly matched by the rounded current price in
cents (strategyCalculator.ts, `getCurrentGridLevel`). -/
def getCurrentGridLevel (currentPrice : ℚ) (gridLevels : List ℚ) : Option ℚ :=
  gridLevels.find? (fun l => decide ((jsRound (currentPrice * 100) : ℚ) = l))

/-- Running state of `processToken`: the per-level states (a total map,
read only at grid levels) plus the `previousGridLevel` variable. -/
structure TokenRunState where
  gridStates : ℚ → GridLevelState
  previousGridLevel : Option ℚ

/-- Record an entry/hedge order pair at a grid level
(strategyCalculator.ts lines 146-178 and 188-225; both branches build
the same pair, differing only in the hedge price in cents passed
here). -/
def entryPair (gridLevel hedgePriceCents : ℚ) (ts : Nat) (orderSize : ℚ)
    (tokenType : TokenType) (st : GridLevelState) : GridLevelState :=
  let entryOrder : Order :=
    { price := gridLevel / 100, timestamp := ts, size := orderSize,
      tokenType := tokenType, isReEntry := st.hasEntered }
  let hedgeOrder : HedgeOrder :=
    { price := hedgePriceCents / 100, timestamp := none, size := orderSize,
      tokenType := tokenType.opposite, isFilled := false }
  { st with orderPairs := st.orderPairs ++ [⟨entryOrder, hedgeOrder⟩],
            hasEntered := true }

/-- Does the unfilled hedge of this pair fill at the given opposite
price in cents (strategyCalculator.ts line 238)? -/
def fillsNow (oppositePriceCents : ℤ) (p : OrderPair) : Prop :=
  ¬ p.hedgeOrder.isFilled = true ∧ oppositePriceCents ≤ jsRound (p.hedgeOrder.price * 100)

instance (c : ℤ) (p : OrderPair) : Decidable (fillsNow c p) := by
  unfold fillsNow; infer_instance

/-- The hedge-fill pass over one level's pairs (strategyCalculator.ts
lines 230-249).  The source mutates pairs in iteration order and, after
each fill, sets `hedgeFilled` when `every` pair is filled; since fills
within one pass only depend on the pair itself, this equals mapping the
fill over all pairs and setting the flag when some fill happened and
the resulting pairs are all filled. -/
def fillHedges (oppositePriceCents : ℤ) (ts : Nat) (st : GridLevelState) :
    GridLevelState :=
  let pairs := st.orderPairs.map (fun p =>
    if fillsNow oppositePriceCents p then
      { p with hedgeOrder :=
          { p.hedgeOrder with isFilled := true, timestamp := some ts } }
    else p)
  let anyFill := st.orderPairs.any (fun p => decide (fillsNow oppositePriceCents p))
  { st with orderPairs := pairs,
            hedgeFilled := st.hedgeFilled ||
              (anyFill && pairs.all (fun p => p.hedgeOrder.isFilled)) }

/-- The token's own price at a data point. -/
def currentPriceOf (tokenType : TokenType) (data : PriceData) : ℚ :=
  match tokenType with | .up => data.upTokenPrice | .down => data.downTokenPrice

/-- The opposite token's price at a data point. -/
def oppositePriceOf (tokenType : TokenType) (data : PriceData) : ℚ :=
  match tokenType with | .up => data.downTokenPrice | .down => data.upTokenPrice

/-- The loop's `currentGridLevel` variable (strategyCalculator.ts lines
119-125): the previous grid level by default, overridden by an exact
match of the current price. -/
def currentGridLevelVar (gridLevels : List ℚ) (tokenType : TokenType)
    (s : TokenRunState) (data : PriceData) : Option ℚ :=
  match getCurrentGridLevel (currentPriceOf tokenType data) gridLevels with
  | some m => some m
  | none => s.previousGridLevel

/-- The entry part of one loop iteration (strategyCalculator.ts lines
128-226): the grid-level-change branch and the first-match branch. -/
def entryPhase (gridLevels : List ℚ) (orderSize maxTotalCost : ℚ)
    (tokenType : TokenType) (s : TokenRunState) (data : PriceData) :
    TokenRunState :=
  match currentGridLevelVar gridLevels tokenType s data, s.previousGridLevel with
  | some cur, some prev =>
    if cur ≠ prev ∧ prev < cur then
      let st := s.gridStates cur
      if ¬ st.hasEntered = true ∨ st.hedgeFilled = true then
        let st' := entryPair cur (max 0 (maxTotalCost - cur)) data.timestamp
          orderSize tokenType st
        { s with gridStates := Function.update s.gridStates cur st' }
      else s
    else s
  | some cur, none =>
    let st := s.gridStates cur
    if ¬ st.hasEntered = true ∨ st.hedgeFilled = true then
      let st' := entryPair cur (max 0 (100 - cur - 3)) data.timestamp
        orderSize tokenType st
      { s with gridStates := Function.update s.gridStates cur st' }
    else s
  | none, _ => s

/-- One iteration of `processToken`'s main loop over a price point
(strategyCalculator.ts lines 111-255): the entry phase, the hedge-fill
pass over every grid level, and the `previousGridLevel` update. -/
def processPricePoint (gridLevels : List ℚ) (orderSize maxTotalCost : ℚ)
    (tokenType : TokenType) (s : TokenRunState) (data : PriceData) :
    TokenRunState :=
  let oppositePriceCents := jsRound (oppositePriceOf tokenType data * 100)
  let s1 := entryPhase gridLevels orderSize maxTotalCost tokenType s data
  let s2 : TokenRunState :=
    { s1 with gridStates := fun l =>
        if l ∈ gridLevels then
          fillHedges oppositePriceCents data.timestamp (s1.gridStates l)
        else s1.gridStates l }
  { s2 with previousGridLevel :=
      match currentGridLevelVar gridLevels tokenType s data with
      | some c => some c
      | none => s.previousGridLevel }

/-- Initial `processToken` state. -/
def initialTokenRunState : TokenRunState :=
  { gridStates := fun _ => initialGridLevelState, previousGridLevel := none }

/-- Fold of `processPricePoint` over the chronological price data. -/
def processTokenRun (priceData : List PriceData) (tokenType : TokenType)
    (gridLevels : List ℚ) (orderSize maxTotalCost : ℚ) : TokenRunState :=
  priceData.foldl (processPricePoint gridLevels orderSize maxTotalCost tokenType)
    initialTokenRunState

/-- Process a single token through the strategy and return the per-level
states in grid-level order (strategyCalculator.ts, `processToken`). -/
def processToken (priceData : List PriceData) (tokenType : TokenType)
    (gridLevels : List ℚ) (orderSize maxTotalCost : ℚ) : List GridLevelState :=
  gridLevels.map (processTokenRun priceData tokenType gridLevels orderSize maxTotalCost).gridStates

/-- Aggregate result (strategyCalculator.ts, `StrategyResult`); the
`orderPoints` map and `gridLevelsUsed` re-expose the per-level order
pairs and are omitted here. -/
structure StrategyResult where
  totalProfit : ℚ
  totalCost : ℚ
  finalValue : ℚ
  totalEntries : Nat
  totalHedgesFilled : Nat
deriving DecidableEq

/-- Entry cost plus filled-hedge cost of one level's pairs
(strategyCalculator.ts lines 306-312). -/
def pairsCost (pairs : List OrderPair) : ℚ :=
  pairs.foldl (fun acc p =>
    acc + p.entryOrder.price * p.entryOrder.size +
      (if p.hedgeOrder.isFilled then p.hedgeOrder.price * p.hedgeOrder.size else 0)) 0

/-- Number of filled hedges among one level's pairs. -/
def pairsHedgesFilled (pairs : List OrderPair) : Nat :=
  (pairs.filter (fun p => p.hedgeOrder.isFilled)).length

/-- Settlement value of one pair given the winner payouts
(strategyCalculator.ts lines 358-396): the entry token pays `lastUp` or
`lastDown` per unit, the hedge token likewise but only if filled. -/
def pairValue (lastUp lastDown : ℚ) (p : OrderPair) : ℚ :=
  (match p.entryOrder.tokenType with | .up => lastUp | .down => lastDown)
      * p.entryOrder.size +
    (if p.hedgeOrder.isFilled then
      (match p.hedgeOrder.tokenType with | .up => lastUp | .down => lastDown)
        * p.hedgeOrder.size
    else 0)

/-- The frontend grid-hedge evaluator (strategyCalculator.ts,
`calculateGridHedgeStrategy`). -/
def calculateGridHedgeStrategy (priceData : List PriceData)
    (maxTotalCost gridGap orderSize : ℚ) : StrategyResult :=
  match priceData with
  | [] =>
    { totalProfit := 0, totalCost := 0, finalValue := 0,
      totalEntries := 0, totalHedgesFilled := 0 }
  | first :: rest =>
    let pd := first :: rest
    let gridLevels := getGridLevels gridGap maxTotalCost
    let upStates := processToken pd .up gridLevels orderSize maxTotalCost
    let downStates := processToken pd .down gridLevels orderSize maxTotalCost
    let allStates := upStates ++ downStates
    let totalEntries := (allStates.map (fun st => st.orderPairs.length)).sum
    let totalHedgesFilled := (allStates.map (fun st => pairsHedgesFilled st.orderPairs)).sum
    let totalCost := (allStates.map (fun st => pairsCost st.orderPairs)).sum
    let lastData := pd.getLast (List.cons_ne_nil first rest)
    let lastUp : ℚ := if lastData.downTokenPrice < lastData.upTokenPrice then 1 else 0
    let lastDown : ℚ := if lastData.downTokenPrice < lastData.upTokenPrice then 0 else 1
    let finalValue :=
      (allStates.map (fun st => (st.orderPairs.map (pairValue lastUp lastDown)).sum)).sum
    let totalProfit := finalValue - totalCost
    { totalProfit := (jsRound (totalProfit * 100) : ℚ) / 100,
      totalCost := (jsRound (totalCost * 100) : ℚ) / 100,
      finalValue := (jsRound (finalValue * 100) : ℚ) / 100,
      totalEntries := totalEntries, totalHedgesFilled := totalHedgesFilled }

end Frontend

namespace Backend

/-- One price-history observation consumed by the backend calculator
(timestamp, UP token price, DOWN token price). -/
structure Tick where
  timestamp : Nat
  upTokenPrice : ℚ
  downTokenPrice : ℚ
deriving DecidableEq

/-- Price of the given token at a tick. -/
def Tick.price (t : Tick) : TokenType → ℚ
  | .up => t.upTokenPrice
  | .down => t.downTokenPrice

/-- The fixed backend grid levels 55c…95c (`GRID_LEVELS`). -/
def GRID_LEVELS : List ℚ :=
  [0.55, 0.60, 0.65, 0.70, 0.75, 0.80, 0.85, 0.90, 0.95]

/-- Hedge price for an entry price (`calculateHedgePrice`):
`max(0, 1.0 - entryPrice - 0.03)`. -/
def calculateHedgePrice (entryPrice : ℚ) : ℚ :=
  max 0 (1 - entryPrice - 0.03)

/-- Ascending crossing of a level between consecutive observations
(`crossesLevelFromBelow`). -/
def crossesLevelFromBelow (previousPrice currentPrice level : ℚ) : Prop :=
  previousPrice < level ∧ currentPrice ≥ level

instance (p c l : ℚ) : Decidable (crossesLevelFromBelow p c l) := by
  unfold crossesLevelFromBelow; infer_instance

/-- Crossing of a target price in either direction between consecutive
observations (`reachesPrice`). -/
def reachesPrice (previousPrice currentPrice targetPrice : ℚ) : Prop :=
  (previousPrice < targetPrice ∧ currentPrice ≥ targetPrice) ∨
    (previousPrice > targetPrice ∧ currentPrice ≤ targetPrice)

instance (p c t : ℚ) : Decidable (reachesPrice p c t) := by
  unfold reachesPrice; infer_instance

/-- Per-level, per-token evaluator state (backend `GridLevelState`). -/
structure GridLevelState where
  level : ℚ
  hasEntry : Bool
  hedgeFilled : Bool
  entryPrice : ℚ
  hedgePrice : ℚ
  tokenType : TokenType
  entryTimestamp : Option Nat
  hedgeFilledTimestamp : Option Nat
  positionCount : ℚ
deriving DecidableEq

/-- Initial state of a level for a token (backend init loop). -/
def initLevelState (level : ℚ) (tokenType : TokenType) : GridLevelState :=
  { level := level, hasEntry := false, hedgeFilled := false,
    entryPrice := level, hedgePrice := calculateHedgePrice level,
    tokenType := tokenType, entryTimestamp := none,
    hedgeFilledTimestamp := none, positionCount := 0 }

/-- A recorded position (backend `Position`). -/
structure Position where
  gridLevel : ℚ
  tokenType : TokenType
  entryPrice : ℚ
  hedgePrice : ℚ
  hedgeFilled : Bool
  orderSize : ℚ
  entryTimestamp : Nat
  hedgeFilledTimestamp : Option Nat
deriving DecidableEq

/-- Whole evaluator state: the two per-token level-state maps (total
maps, read only at `GRID_LEVELS`) and the chronological position
list. -/
structure EngineState where
  upStates : ℚ → GridLevelState
  downStates : ℚ → GridLevelState
  positions : List Position

/-- The level-state map for a token. -/
def EngineState.statesFor (s : EngineState) : TokenType → (ℚ → GridLevelState)
  | .up => s.upStates
  | .down => s.downStates

/-- Replace the level-state map for a token. -/
def EngineState.setStates (s : EngineState) : TokenType → (ℚ → GridLevelState) → EngineState
  | .up, f => { s with upStates := f }
  | .down, f => { s with downStates := f }

/-- Initial engine state. -/
def initEngineState : EngineState :=
  { upStates := fun l => initLevelState l .up,
    downStates := fun l => initLevelState l .down,
    positions := [] }

/-- Does a position match the key used by the backend's hedge-fill
update (`p.gridLevel === level && p.tokenType === tt`) and is it still
unfilled? -/
def matchesUnfilled (level : ℚ) (tt : TokenType) (p : Position) : Prop :=
  p.gridLevel = level ∧ p.tokenType = tt ∧ ¬ p.hedgeFilled = true

instance (l : ℚ) (tt : TokenType) (p : Position) : Decidable (matchesUnfilled l tt p) := by
  unfold matchesUnfilled; infer_instance

/-- Mark a position's hedge as filled at a timestamp. -/
def fillPosition (ts : Nat) (p : Position) : Position :=
  { p with hedgeFilled := true, hedgeFilledTimestamp := some ts }

/-- Helper of `markLastUnfilled` working on the reversed list: mark the
first matching unfilled position. -/
def markFirstUnfilledRev (level : ℚ) (tt : TokenType) (ts : Nat) :
    List Position → List Position
  | [] => []
  | p :: rest =>
    if matchesUnfilled level tt p then fillPosition ts p :: rest
    else p :: markFirstUnfilledRev level tt ts rest

/-- The backend's in-place update of the most recent unfilled position
at a level for a token (`positions.filter(...)` then mutating its last
element). -/
def markLastUnfilled (ps : List Position) (level : ℚ) (tt : TokenType)
    (ts : Nat) : List Position :=
  (markFirstUnfilledRev level tt ts ps.reverse).reverse

/-- The entry check of one grid level for one token during one tick
(backend main loop, first half of each level body). -/
def levelEntry (orderSize : ℚ) (tt : TokenType) (prev cur : Tick)
    (s : EngineState) (level : ℚ) : EngineState :=
  let st := s.statesFor tt level
  if crossesLevelFromBelow (prev.price tt) (cur.price tt) level ∧
      (¬ st.hasEntry = true ∨ st.hedgeFilled = true) then
    let st' := { st with hasEntry := true,
                         entryTimestamp := some cur.timestamp,
                         positionCount := st.positionCount + orderSize,
                         hedgeFilled := false }
    let pos : Position :=
      { gridLevel := level, tokenType := tt, entryPrice := level,
        hedgePrice := st.hedgePrice, hedgeFilled := false,
        orderSize := orderSize, entryTimestamp := cur.timestamp,
        hedgeFilledTimestamp := none }
    { (s.setStates tt (Function.update (s.statesFor tt) level st')) with
        positions := s.positions ++ [pos] }
  else s

/-- The hedge-fill check of one grid level for one token during one
tick (backend main loop, second half of each level body). -/
def levelFill (tt : TokenType) (prev cur : Tick) (s : EngineState)
    (level : ℚ) : EngineState :=
  let st1 := s.statesFor tt level
  if st1.hasEntry = true ∧ ¬ st1.hedgeFilled = true ∧
      reachesPrice (prev.price tt.opposite) (cur.price tt.opposite) st1.hedgePrice then
    let st2 := { st1 with hedgeFilled := true,
                          hedgeFilledTimestamp := some cur.timestamp }
    { (s.setStates tt (Function.update (s.statesFor tt) level st2)) with
        positions := markLastUnfilled s.positions level tt cur.timestamp }
  else s

/-- One grid level's processing for one token during one tick (backend
main loop bodies for UP and DOWN): the entry check followed by the
hedge-fill check. -/
def levelStep (orderSize : ℚ) (tt : TokenType) (prev cur : Tick)
    (s : EngineState) (level : ℚ) : EngineState :=
  levelFill tt prev cur (levelEntry orderSize tt prev cur s level) level

/-- One tick of the backend main loop: all UP levels, then all DOWN
levels. -/
def tickStep (orderSize : ℚ) (s : EngineState) (pc : Tick × Tick) : EngineState :=
  let s1 := GRID_LEVELS.foldl (levelStep orderSize .up pc.1 pc.2) s
  GRID_LEVELS.foldl (levelStep orderSize .down pc.1 pc.2) s1

/-- The (previous, current) observation pairs walked by the backend loop
(`previous = i > 0 ? history[i-1] : current`). -/
def tickPairs : List Tick → List (Tick × Tick)
  | [] => []
  | h :: t => (h, h) :: (h :: t).zip t

/-- Fold of `tickStep` from the initial engine state. -/
def runTicks (orderSize : ℚ) (pcs : List (Tick × Tick)) : EngineState :=
  pcs.foldl (tickStep orderSize) initEngineState

/-- Run the backend evaluator's scan over a price history. -/
def runEngine (history : List Tick) (orderSize : ℚ) : EngineState :=
  runTicks orderSize (tickPairs history)

/-- Settlement value (profit contribution) of one recorded position
given the final prices (backend final-profit loop). -/
def positionValue (finalUp finalDown : ℚ) (p : Position) : ℚ :=
  match p.tokenType with
  | .up =>
    if p.hedgeFilled then (p.hedgePrice - p.entryPrice) * p.orderSize
    else if finalUp > finalDown then (1 - p.entryPrice) * p.orderSize
    else -p.entryPrice * p.orderSize
  | .down =>
    if p.hedgeFilled then (p.hedgePrice - p.entryPrice) * p.orderSize
    else if finalDown > finalUp then (1 - p.entryPrice) * p.orderSize
    else -p.entryPrice * p.orderSize

/-- The backend grid-hedge evaluator (backend
`calculateGridHedgeStrategy`): returns the total profit. -/
def calculateGridHedgeStrategy (history : List Tick) (orderSize : ℚ) : ℚ :=
  match history with
  | [] => 0
  | h :: t =>
    let s := runEngine (h :: t) orderSize
    let fin := (h :: t).getLast (List.cons_ne_nil h t)
    s.positions.foldl
      (fun acc p => acc + positionValue fin.upTokenPrice fin.downTokenPrice p) 0

end Backend

namespace StringUtil

/-- Decimal digit characters of a natural number, most significant
first; the functional core of `Nat.toDigitsCore` at base 10. -/
def decChars (n : Nat) : List Char :=
  if h : n / 10 = 0 then [Nat.digitChar (n % 10)]
  else decChars (n / 10) ++ [Nat.digitChar (n % 10)]
termination_by n
decreasing_by omega

lemma decChars_eq (n : Nat) :
    decChars n = if n / 10 = 0 then [Nat.digitChar (n % 10)]
      else decChars (n / 10) ++ [Nat.digitChar (n % 10)] := by
  rw [decChars]
  by_cases h : n / 10 = 0 <;> simp [h]

lemma decChars_ne_nil (n : Nat) : decChars n ≠ [] := by
  rw [decChars_eq]
  by_cases h : n / 10 = 0 <;> simp [h]

lemma toDigitsCore_eq_decChars (f : Nat) :
    ∀ (n : Nat) (acc : List Char), n < f →
      Nat.toDigitsCore 10 f n acc = decChars n ++ acc := by
  induction f with
  | zero => intro n acc h; omega
  | succ f ih =>
    intro n acc h
    by_cases h0 : n / 10 = 0
    · simp only [Nat.toDigitsCore, h0, if_pos]
      rw [decChars_eq, if_pos h0]
      simp
    · simp only [Nat.toDigitsCore, h0, if_neg, not_false_iff]
      rw [ih (n / 10) (Nat.digitChar (n % 10) :: acc) (by omega)]
      rw [decChars_eq n, if_neg h0]
      simp

lemma digitChar_inj_fin : ∀ a b : Fin 10,
    Nat.digitChar a.val = Nat.digitChar b.val → a = b := by decide

lemma digitChar_inj {m n : Nat} (hm : m < 10) (hn : n < 10)
    (h : Nat.digitChar m = Nat.digitChar n) : m = n := by
  have := digitChar_inj_fin ⟨m, hm⟩ ⟨n, hn⟩ h
  exact congrArg Fin.val this

lemma decChars_inj (m : Nat) : ∀ n, decChars m = decChars n → m = n := by
  induction m using Nat.strong_induction_on with
  | _ m ih =>
    intro n h
    rw [decChars_eq m, decChars_eq n] at h
    by_cases hm : m / 10 = 0 <;> by_cases hn : n / 10 = 0
    · rw [if_pos hm, if_pos hn] at h
      have hd : m % 10 = n % 10 :=
        digitChar_inj (Nat.mod_lt _ (by omega)) (Nat.mod_lt _ (by omega))
          (List.singleton_injective h)
      omega
    · rw [if_pos hm, if_neg hn] at h
      have := congrArg List.length h
      simp at this
      exact absurd this (decChars_ne_nil _)
    · rw [if_neg hm, if_pos hn] at h
      have := congrArg List.length h
      simp at this
      exact absurd this (decChars_ne_nil _)
    · rw [if_neg hm, if_neg hn] at h
      have h' := congrArg List.reverse h
      simp only [List.reverse_append, List.reverse_cons, List.reverse_nil,
        List.nil_append, List.singleton_append] at h'
      have hd : m % 10 = n % 10 :=
        digitChar_inj (Nat.mod_lt _ (by omega)) (Nat.mod_lt _ (by omega))
          (List.head_eq_of_cons_eq h')
      have ht : decChars (m / 10) = decChars (n / 10) :=
        List.reverse_injective (List.tail_eq_of_cons_eq h')
      have hq : m / 10 = n / 10 := ih (m / 10) (by omega) (n / 10) ht
      omega

lemma natRepr_inj {m n : Nat} (h : Nat.repr m = Nat.repr n) : m = n := by
  have hdata : Nat.toDigits 10 m = Nat.toDigits 10 n := congrArg String.data h
  unfold Nat.toDigits at hdata
  rw [toDigitsCore_eq_decChars (m + 1) m [] (by omega),
      toDigitsCore_eq_decChars (n + 1) n [] (by omega)] at hdata
  simp at hdata
  exact decChars_inj m n hdata

lemma natToString_inj {m n : Nat} (h : toString m = toString n) : m = n :=
  natRepr_inj h

end StringUtil

namespace Backend

/-- The positions recorded at one grid level for one token, in order
(the backend's `positions.filter(p => p.gridLevel === level &&
p.tokenType === tt)` restricted to the key). -/
def filterAt (level : ℚ) (tt : TokenType) (ps : List Position) : List Position :=
  ps.filter (fun p => decide (p.gridLevel = level) && decide (p.tokenType = tt))

/-- The last recorded position (if any) has its hedge filled. -/
def lastFilled (ps : List Position) : Prop :=
  ∀ p, ps.getLast? = some p → p.hedgeFilled = true

/-- The entry gate of the backend evaluator at one level: first entry,
or re-entry with the hedge already filled. -/
def entryAllowed (st : GridLevelState) : Prop :=
  ¬ st.hasEntry = true ∨ st.hedgeFilled = true

instance (st : GridLevelState) : Decidable (entryAllowed st) := by
  unfold entryAllowed; infer_instance

lemma statesFor_setStates_self (s : EngineState) (tt : TokenType)
    (f : ℚ → GridLevelState) : (s.setStates tt f).statesFor tt = f := by
  cases tt <;> rfl

lemma statesFor_setStates_ne (s : EngineState) {tt tt' : TokenType}
    (f : ℚ → GridLevelState) (h : tt' ≠ tt) :
    (s.setStates tt f).statesFor tt' = s.statesFor tt' := by
  cases tt <;> cases tt' <;> first | rfl | exact absurd rfl h

lemma positions_setStates (s : EngineState) (tt : TokenType)
    (f : ℚ → GridLevelState) : (s.setStates tt f).positions = s.positions := by
  cases tt <;> rfl

lemma filterAt_append (level : ℚ) (tt : TokenType) (ps qs : List Position) :
    filterAt level tt (ps ++ qs) = filterAt level tt ps ++ filterAt level tt qs :=
  List.filter_append _ _

lemma fillPosition_key (ts : Nat) (p : Position) :
    (fillPosition ts p).gridLevel = p.gridLevel ∧
      (fillPosition ts p).tokenType = p.tokenType :=
  ⟨rfl, rfl⟩

lemma markFirstUnfilledRev_length (level : ℚ) (tt : TokenType) (ts : Nat) :
    ∀ xs : List Position, (markFirstUnfilledRev level tt ts xs).length = xs.length := by
  intro xs
  induction xs with
  | nil => rfl
  | cons p rest ih =>
    rw [markFirstUnfilledRev]
    split
    · simp
    · simp [ih]

lemma markLastUnfilled_length (ps : List Position) (level : ℚ) (tt : TokenType)
    (ts : Nat) : (markLastUnfilled ps level tt ts).length = ps.length := by
  unfold markLastUnfilled
  simp [markFirstUnfilledRev_length]

lemma filterAt_markFirstUnfilledRev_ne (l level : ℚ) (tt₂ tt : TokenType)
    (ts : Nat) (h : ¬ (l = level ∧ tt₂ = tt)) :
    ∀ xs : List Position,
      filterAt l tt₂ (markFirstUnfilledRev level tt ts xs) = filterAt l tt₂ xs := by
  intro xs
  induction xs with
  | nil => rfl
  | cons p rest ih =>
    rw [markFirstUnfilledRev]
    split
    · rename_i hm
      have hkey : ¬ (p.gridLevel = l ∧ p.tokenType = tt₂) := by
        rintro ⟨h1, h2⟩
        exact h ⟨h1 ▸ hm.1.symm ▸ rfl, h2 ▸ hm.2.1.symm ▸ rfl⟩
      have hkey' : ¬ ((fillPosition ts p).gridLevel = l ∧
          (fillPosition ts p).tokenType = tt₂) := by
        simpa [fillPosition] using hkey
      simp only [filterAt, List.filter_cons]
      rw [if_neg (by simpa using hkey'), if_neg (by simpa using hkey)]
    · simp only [filterAt, List.filter_cons]
      have := ih
      simp only [filterAt] at this
      rw [this]

lemma filterAt_markLastUnfilled_ne (ps : List Position) (l level : ℚ)
    (tt₂ tt : TokenType) (ts : Nat) (h : ¬ (l = level ∧ tt₂ = tt)) :
    filterAt l tt₂ (markLastUnfilled ps level tt ts) = filterAt l tt₂ ps := by
  unfold markLastUnfilled
  have hrev : ∀ ys : List Position, filterAt l tt₂ ys.reverse = (filterAt l tt₂ ys).reverse := by
    intro ys
    simp [filterAt, List.filter_reverse]
  rw [hrev, filterAt_markFirstUnfilledRev_ne l level tt₂ tt ts h]
  rw [show filterAt l tt₂ ps.reverse = (filterAt l tt₂ ps).reverse from by
    simp [filterAt, List.filter_reverse]]
  simp

lemma filterAt_markFirstUnfilledRev_self (level : ℚ) (tt : TokenType) (ts : Nat) :
    ∀ xs : List Position,
      filterAt level tt (markFirstUnfilledRev level tt ts xs) =
        markFirstUnfilledRev level tt ts (filterAt level tt xs) := by
  intro xs
  induction xs with
  | nil => rfl
  | cons p rest ih =>
    rw [markFirstUnfilledRev]
    by_cases hm : matchesUnfilled level tt p
    · rw [if_pos hm]
      have hkey : p.gridLevel = level ∧ p.tokenType = tt := ⟨hm.1, hm.2.1⟩
      simp only [filterAt, List.filter_cons]
      rw [if_pos (by simp [fillPosition, hkey.1, hkey.2]),
          if_pos (by simp [hkey.1, hkey.2])]
      rw [markFirstUnfilledRev, if_pos hm]
    · rw [if_neg hm]
      by_cases hkey : p.gridLevel = level ∧ p.tokenType = tt
      · simp only [filterAt, List.filter_cons]
        rw [if_pos (by simp [hkey.1, hkey.2]), if_pos (by simp [hkey.1, hkey.2])]
        have ihx := ih
        simp only [filterAt] at ihx
        rw [ihx]
        rw [markFirstUnfilledRev, if_neg hm]
      · simp only [filterAt, List.filter_cons]
        rw [if_neg (by simpa using hkey), if_neg (by simpa using hkey)]
        have ihx := ih
        simp only [filterAt] at ihx
        rw [ihx]

lemma filterAt_markLastUnfilled_self (ps : List Position) (level : ℚ)
    (tt : TokenType) (ts : Nat) :
    filterAt level tt (markLastUnfilled ps level tt ts) =
      markLastUnfilled (filterAt level tt ps) level tt ts := by
  unfold markLastUnfilled
  rw [show ∀ ys : List Position, filterAt level tt ys.reverse = (filterAt level tt ys).reverse from
    fun ys => by simp [filterAt, List.filter_reverse]]
  rw [filterAt_markFirstUnfilledRev_self]
  rw [show filterAt level tt ps.reverse = (filterAt level tt ps).reverse from by
    simp [filterAt, List.filter_reverse]]

lemma mem_filterAt {level : ℚ} {tt : TokenType} {ps : List Position}
    {p : Position} (h : p ∈ filterAt level tt ps) :
    p.gridLevel = level ∧ p.tokenType = tt := by
  have := List.of_mem_filter h
  simpa using this

lemma lastFilled_markLastUnfilled_of_all (qs : List Position) (level : ℚ)
    (tt : TokenType) (ts : Nat)
    (hall : ∀ p ∈ qs, p.gridLevel = level ∧ p.tokenType = tt) :
    lastFilled (markLastUnfilled qs level tt ts) := by
  intro p hp
  unfold markLastUnfilled at hp
  rw [List.getLast?_reverse] at hp
  rcases hq : qs.reverse with _ | ⟨q, rest⟩
  · rw [hq] at hp
    simp [markFirstUnfilledRev] at hp
  · rw [hq] at hp
    rw [markFirstUnfilledRev] at hp
    have hqmem : q ∈ qs := by
      have : q ∈ qs.reverse := by rw [hq]; exact List.mem_cons_self q rest
      simpa using this
    by_cases hm : matchesUnfilled level tt q
    · rw [if_pos hm] at hp
      simp only [List.head?_cons, Option.some_inj] at hp
      rw [← hp]
      rfl
    · rw [if_neg hm] at hp
      simp only [List.head?_cons, Option.some_inj] at hp
      rw [← hp]
      rcases hall q hqmem with ⟨h1, h2⟩
      unfold matchesUnfilled at hm
      simp [h1, h2] at hm
      exact hm

end Backend

namespace Backend

lemma levelEntry_pos_statesFor (os : ℚ) (tt : TokenType) (prev cur : Tick)
    (s : EngineState) (level : ℚ)
    (hc : crossesLevelFromBelow (prev.price tt) (cur.price tt) level ∧
      entryAllowed (s.statesFor tt level)) :
    (levelEntry os tt prev cur s level).statesFor tt level =
      { (s.statesFor tt level) with
        hasEntry := true,
        entryTimestamp := some cur.timestamp,
        positionCount := (s.statesFor tt level).positionCount + os,
        hedgeFilled := false } := by
  unfold entryAllowed at hc
  simp only [levelEntry]
  rw [if_pos hc]
  cases tt <;>
    simp [EngineState.statesFor, EngineState.setStates, Function.update_same]

lemma levelEntry_pos_positions (os : ℚ) (tt : TokenType) (prev cur : Tick)
    (s : EngineState) (level : ℚ)
    (hc : crossesLevelFromBelow (prev.price tt) (cur.price tt) level ∧
      entryAllowed (s.statesFor tt level)) :
    (levelEntry os tt prev cur s level).positions =
      s.positions ++
        [{ gridLevel := level, tokenType := tt, entryPrice := level,
           hedgePrice := (s.statesFor tt level).hedgePrice, hedgeFilled := false,
           orderSize := os, entryTimestamp := cur.timestamp,
           hedgeFilledTimestamp := none }] := by
  unfold entryAllowed at hc
  simp only [levelEntry]
  rw [if_pos hc]

lemma levelEntry_neg (os : ℚ) (tt : TokenType) (prev cur : Tick)
    (s : EngineState) (level : ℚ)
    (hc : ¬ (crossesLevelFromBelow (prev.price tt) (cur.price tt) level ∧
      entryAllowed (s.statesFor tt level))) :
    levelEntry os tt prev cur s level = s := by
  unfold entryAllowed at hc
  simp only [levelEntry]
  rw [if_neg hc]

lemma levelFill_pos_statesFor (tt : TokenType) (prev cur : Tick)
    (s : EngineState) (level : ℚ)
    (hc : (s.statesFor tt level).hasEntry = true ∧
      ¬ (s.statesFor tt level).hedgeFilled = true ∧
      reachesPrice (prev.price tt.opposite) (cur.price tt.opposite)
        (s.statesFor tt level).hedgePrice) :
    (levelFill tt prev cur s level).statesFor tt level =
      { (s.statesFor tt level) with
        hedgeFilled := true,
        hedgeFilledTimestamp := some cur.timestamp } := by
  simp only [levelFill]
  rw [if_pos hc]
  cases tt <;>
    simp [EngineState.statesFor, EngineState.setStates, Function.update_same]

lemma levelFill_pos_positions (tt : TokenType) (prev cur : Tick)
    (s : EngineState) (level : ℚ)
    (hc : (s.statesFor tt level).hasEntry = true ∧
      ¬ (s.statesFor tt level).hedgeFilled = true ∧
      reachesPrice (prev.price tt.opposite) (cur.price tt.opposite)
        (s.statesFor tt level).hedgePrice) :
    (levelFill tt prev cur s level).positions =
      markLastUnfilled s.positions level tt cur.timestamp := by
  simp only [levelFill]
  rw [if_pos hc]

lemma levelFill_neg (tt : TokenType) (prev cur : Tick) (s : EngineState)
    (level : ℚ)
    (hc : ¬ ((s.statesFor tt level).hasEntry = true ∧
      ¬ (s.statesFor tt level).hedgeFilled = true ∧
      reachesPrice (prev.price tt.opposite) (cur.price tt.opposite)
        (s.statesFor tt level).hedgePrice)) :
    levelFill tt prev cur s level = s := by
  simp only [levelFill]
  rw [if_neg hc]

lemma statesFor_withPositions (X : EngineState) (P : List Position)
    (tt : TokenType) :
    ({ X with positions := P } : EngineState).statesFor tt = X.statesFor tt := by
  cases tt <;> rfl

lemma filterAt_singleton_ne (l : ℚ) (tt₂ : TokenType) (p : Position)
    (h : ¬ (p.gridLevel = l ∧ p.tokenType = tt₂)) :
    filterAt l tt₂ [p] = [] := by
  simp only [filterAt, List.filter_cons, List.filter_nil]
  rw [if_neg (by simpa using h)]

lemma filterAt_singleton_self (l : ℚ) (tt₂ : TokenType) (p : Position)
    (h : p.gridLevel = l ∧ p.tokenType = tt₂) :
    filterAt l tt₂ [p] = [p] := by
  simp only [filterAt, List.filter_cons, List.filter_nil]
  rw [if_pos (by simpa using h)]

lemma levelEntry_statesFor_ne (os : ℚ) (tt : TokenType) (prev cur : Tick)
    (s : EngineState) (level : ℚ) (tt₂ : TokenType) (l : ℚ)
    (h : ¬ (tt₂ = tt ∧ l = level)) :
    (levelEntry os tt prev cur s level).statesFor tt₂ l = s.statesFor tt₂ l := by
  simp only [levelEntry]
  split
  · rw [statesFor_withPositions]
    by_cases htt : tt₂ = tt
    · subst htt
      have hl : l ≠ level := fun he => h ⟨rfl, he⟩
      rw [statesFor_setStates_self]
      exact Function.update_noteq hl _ _
    · rw [statesFor_setStates_ne _ _ htt]
  · rfl

lemma levelFill_statesFor_ne (tt : TokenType) (prev cur : Tick)
    (s : EngineState) (level : ℚ) (tt₂ : TokenType) (l : ℚ)
    (h : ¬ (tt₂ = tt ∧ l = level)) :
    (levelFill tt prev cur s level).statesFor tt₂ l = s.statesFor tt₂ l := by
  simp only [levelFill]
  split
  · rw [statesFor_withPositions]
    by_cases htt : tt₂ = tt
    · subst htt
      have hl : l ≠ level := fun he => h ⟨rfl, he⟩
      rw [statesFor_setStates_self]
      exact Function.update_noteq hl _ _
    · rw [statesFor_setStates_ne _ _ htt]
  · rfl

lemma levelStep_statesFor_ne (os : ℚ) (tt : TokenType) (prev cur : Tick)
    (s : EngineState) (level : ℚ) (tt₂ : TokenType) (l : ℚ)
    (h : ¬ (tt₂ = tt ∧ l = level)) :
    (levelStep os tt prev cur s level).statesFor tt₂ l = s.statesFor tt₂ l := by
  unfold levelStep
  rw [levelFill_statesFor_ne _ _ _ _ _ _ _ h,
      levelEntry_statesFor_ne _ _ _ _ _ _ _ _ h]

lemma filterAt_levelEntry_ne (os : ℚ) (tt : TokenType) (prev cur : Tick)
    (s : EngineState) (level : ℚ) (l : ℚ) (tt₂ : TokenType)
    (h : ¬ (tt₂ = tt ∧ l = level)) :
    filterAt l tt₂ (levelEntry os tt prev cur s level).positions =
      filterAt l tt₂ s.positions := by
  simp only [levelEntry]
  split
  · show filterAt l tt₂ (s.positions ++ [_]) = _
    rw [filterAt_append, filterAt_singleton_ne]
    · simp
    · rintro ⟨h1, h2⟩
      exact h ⟨h2.symm, h1.symm⟩
  · rfl

lemma filterAt_levelFill_ne (tt : TokenType) (prev cur : Tick)
    (s : EngineState) (level : ℚ) (l : ℚ) (tt₂ : TokenType)
    (h : ¬ (tt₂ = tt ∧ l = level)) :
    filterAt l tt₂ (levelFill tt prev cur s level).positions =
      filterAt l tt₂ s.positions := by
  simp only [levelFill]
  split
  · show filterAt l tt₂ (markLastUnfilled s.positions level tt cur.timestamp) = _
    exact filterAt_markLastUnfilled_ne _ _ _ _ _ _
      (by rintro ⟨h1, h2⟩; exact h ⟨h2, h1⟩)
  · rfl

lemma filterAt_levelStep_ne (os : ℚ) (tt : TokenType) (prev cur : Tick)
    (s : EngineState) (level : ℚ) (l : ℚ) (tt₂ : TokenType)
    (h : ¬ (tt₂ = tt ∧ l = level)) :
    filterAt l tt₂ (levelStep os tt prev cur s level).positions =
      filterAt l tt₂ s.positions := by
  unfold levelStep
  rw [filterAt_levelFill_ne _ _ _ _ _ _ _ h,
      filterAt_levelEntry_ne _ _ _ _ _ _ _ _ h]

lemma length_filterAt_levelFill (tt : TokenType) (prev cur : Tick)
    (s : EngineState) (level : ℚ) (l : ℚ) (tt₂ : TokenType) :
    (filterAt l tt₂ (levelFill tt prev cur s level).positions).length =
      (filterAt l tt₂ s.positions).length := by
  by_cases h : tt₂ = tt ∧ l = level
  · obtain ⟨h1, h2⟩ := h
    subst h1; subst h2
    simp only [levelFill]
    split
    · show (filterAt l tt₂ (markLastUnfilled s.positions l tt₂ cur.timestamp)).length = _
      rw [filterAt_markLastUnfilled_self, markLastUnfilled_length]
    · rfl
  · rw [filterAt_levelFill_ne _ _ _ _ _ _ _ h]

lemma length_filterAt_levelStep_self (os : ℚ) (tt : TokenType) (prev cur : Tick)
    (s : EngineState) (level : ℚ) :
    (filterAt level tt (levelStep os tt prev cur s level).positions).length =
      (filterAt level tt s.positions).length +
        (if crossesLevelFromBelow (prev.price tt) (cur.price tt) level ∧
            entryAllowed (s.statesFor tt level) then 1 else 0) := by
  unfold levelStep
  rw [length_filterAt_levelFill]
  by_cases hc : crossesLevelFromBelow (prev.price tt) (cur.price tt) level ∧
      entryAllowed (s.statesFor tt level)
  · rw [levelEntry_pos_positions _ _ _ _ _ _ hc, filterAt_append,
      filterAt_singleton_self, if_pos hc]
    · simp
    · exact ⟨rfl, rfl⟩
  · rw [levelEntry_neg _ _ _ _ _ _ hc, if_neg hc]
    simp

lemma foldl_levelStep_statesFor_ne (os : ℚ) (tt : TokenType) (prev cur : Tick)
    (tt₂ : TokenType) (l : ℚ) :
    ∀ (LS : List ℚ) (s : EngineState), (∀ l' ∈ LS, ¬ (tt₂ = tt ∧ l = l')) →
      (LS.foldl (levelStep os tt prev cur) s).statesFor tt₂ l =
        s.statesFor tt₂ l := by
  intro LS
  induction LS with
  | nil => intro s _; rfl
  | cons l' rest ih =>
    intro s h
    rw [List.foldl_cons, ih _ (fun x hx => h x (List.mem_cons_of_mem _ hx)),
      levelStep_statesFor_ne _ _ _ _ _ _ _ _ (h l' (List.mem_cons_self _ _))]

lemma foldl_levelStep_filterAt_ne (os : ℚ) (tt : TokenType) (prev cur : Tick)
    (tt₂ : TokenType) (l : ℚ) :
    ∀ (LS : List ℚ) (s : EngineState), (∀ l' ∈ LS, ¬ (tt₂ = tt ∧ l = l')) →
      filterAt l tt₂ ((LS.foldl (levelStep os tt prev cur) s)).positions =
        filterAt l tt₂ s.positions := by
  intro LS
  induction LS with
  | nil => intro s _; rfl
  | cons l' rest ih =>
    intro s h
    rw [List.foldl_cons, ih _ (fun x hx => h x (List.mem_cons_of_mem _ hx)),
      filterAt_levelStep_ne _ _ _ _ _ _ _ _ (h l' (List.mem_cons_self _ _))]

lemma foldl_levelStep_count (os : ℚ) (tt : TokenType) (prev cur : Tick) (l : ℚ) :
    ∀ (LS : List ℚ) (s : EngineState), LS.Nodup → l ∈ LS →
      (filterAt l tt ((LS.foldl (levelStep os tt prev cur) s)).positions).length =
        (filterAt l tt s.positions).length +
          (if crossesLevelFromBelow (prev.price tt) (cur.price tt) l ∧
              entryAllowed (s.statesFor tt l) then 1 else 0) := by
  intro LS
  induction LS with
  | nil => intro s _ hmem; cases hmem
  | cons l' rest ih =>
    intro s hnd hmem
    rw [List.foldl_cons]
    by_cases he : l' = l
    · subst he
      have hnotin : l' ∉ rest := (List.nodup_cons.mp hnd).1
      rw [foldl_levelStep_filterAt_ne os tt prev cur tt l' rest _
        (fun x hx => by rintro ⟨-, h2⟩; exact hnotin (h2 ▸ hx))]
      exact length_filterAt_levelStep_self os tt prev cur s l'
    · have hmem' : l ∈ rest := by
        rcases List.mem_cons.mp hmem with h | h
        · exact absurd h.symm he
        · exact h
      rw [ih _ (List.nodup_cons.mp hnd).2 hmem',
        filterAt_levelStep_ne _ _ _ _ _ _ _ _ (by rintro ⟨-, h2⟩; exact he h2.symm),
        levelStep_statesFor_ne _ _ _ _ _ _ _ _ (by rintro ⟨-, h2⟩; exact he h2.symm)]

lemma grid_levels_nodup : GRID_LEVELS.Nodup := by
  rw [GRID_LEVELS]
  norm_num

lemma tickStep_count (os : ℚ) (s : EngineState) (prev cur : Tick) (l : ℚ)
    (tt : TokenType) (hl : l ∈ GRID_LEVELS) :
    (filterAt l tt (tickStep os s (prev, cur)).positions).length =
      (filterAt l tt s.positions).length +
        (if crossesLevelFromBelow (prev.price tt) (cur.price tt) l ∧
            entryAllowed (s.statesFor tt l) then 1 else 0) := by
  unfold tickStep
  cases tt
  · rw [foldl_levelStep_filterAt_ne os .down prev cur .up l GRID_LEVELS _
      (fun x _ => by rintro ⟨h1, -⟩; cases h1)]
    exact foldl_levelStep_count os .up prev cur l GRID_LEVELS s grid_levels_nodup hl
  · rw [foldl_levelStep_count os .down prev cur l GRID_LEVELS _ grid_levels_nodup hl,
      foldl_levelStep_filterAt_ne os .up prev cur .down l GRID_LEVELS s
        (fun x _ => by rintro ⟨h1, -⟩; cases h1),
      foldl_levelStep_statesFor_ne os .up prev cur .down l GRID_LEVELS s
        (fun x _ => by rintro ⟨h1, -⟩; cases h1)]

end Backend

namespace Backend

/-- Reachability invariant tying a level's flags to its recorded
positions: no positions at the level before its first entry, and
whenever the level's `hedgeFilled` flag is set, the most recent
position at the level has its hedge filled. -/
def InvJ (s : EngineState) (l : ℚ) (tt : TokenType) : Prop :=
  ((s.statesFor tt l).hasEntry = false → filterAt l tt s.positions = []) ∧
  ((s.statesFor tt l).hedgeFilled = true → lastFilled (filterAt l tt s.positions))

lemma invJ_init (l : ℚ) (tt : TokenType) : InvJ initEngineState l tt := by
  constructor
  · intro _; rfl
  · intro _ p hp
    simp [initEngineState, filterAt] at hp

lemma invJ_levelEntry (os : ℚ) (tt' : TokenType) (prev cur : Tick)
    (s : EngineState) (level : ℚ) (l : ℚ) (tt : TokenType)
    (h : InvJ s l tt) : InvJ (levelEntry os tt' prev cur s level) l tt := by
  by_cases hk : tt = tt' ∧ l = level
  · obtain ⟨h1, h2⟩ := hk
    subst h1; subst h2
    by_cases hc : crossesLevelFromBelow (prev.price tt) (cur.price tt) l ∧
        entryAllowed (s.statesFor tt l)
    · constructor
      · intro hfe
        rw [levelEntry_pos_statesFor _ _ _ _ _ _ hc] at hfe
        simp at hfe
      · intro hff
        rw [levelEntry_pos_statesFor _ _ _ _ _ _ hc] at hff
        simp at hff
    · rw [levelEntry_neg _ _ _ _ _ _ hc]
      exact h
  · constructor
    · intro hfe
      rw [levelEntry_statesFor_ne _ _ _ _ _ _ _ _ hk] at hfe
      rw [filterAt_levelEntry_ne _ _ _ _ _ _ _ _ hk]
      exact h.1 hfe
    · intro hff
      rw [levelEntry_statesFor_ne _ _ _ _ _ _ _ _ hk] at hff
      rw [filterAt_levelEntry_ne _ _ _ _ _ _ _ _ hk]
      exact h.2 hff

lemma invJ_levelFill (tt' : TokenType) (prev cur : Tick) (s : EngineState)
    (level : ℚ) (l : ℚ) (tt : TokenType) (h : InvJ s l tt) :
    InvJ (levelFill tt' prev cur s level) l tt := by
  by_cases hk : tt = tt' ∧ l = level
  · obtain ⟨h1, h2⟩ := hk
    subst h1; subst h2
    by_cases hc : (s.statesFor tt l).hasEntry = true ∧
        ¬ (s.statesFor tt l).hedgeFilled = true ∧
        reachesPrice (prev.price tt.opposite) (cur.price tt.opposite)
          (s.statesFor tt l).hedgePrice
    · constructor
      · intro hfe
        rw [levelFill_pos_statesFor _ _ _ _ _ hc] at hfe
        simp only at hfe
        rw [hc.1] at hfe
        cases hfe
      · intro _
        rw [levelFill_pos_positions _ _ _ _ _ hc, filterAt_markLastUnfilled_self]
        exact lastFilled_markLastUnfilled_of_all _ _ _ _
          (fun p hp => mem_filterAt hp)
    · rw [levelFill_neg _ _ _ _ _ hc]
      exact h
  · constructor
    · intro hfe
      rw [levelFill_statesFor_ne _ _ _ _ _ _ _ hk] at hfe
      rw [filterAt_levelFill_ne _ _ _ _ _ _ _ hk]
      exact h.1 hfe
    · intro hff
      rw [levelFill_statesFor_ne _ _ _ _ _ _ _ hk] at hff
      rw [filterAt_levelFill_ne _ _ _ _ _ _ _ hk]
      exact h.2 hff

lemma invJ_levelStep (os : ℚ) (tt' : TokenType) (prev cur : Tick)
    (s : EngineState) (level : ℚ) (l : ℚ) (tt : TokenType)
    (h : InvJ s l tt) : InvJ (levelStep os tt' prev cur s level) l tt := by
  unfold levelStep
  exact invJ_levelFill _ _ _ _ _ _ _ (invJ_levelEntry _ _ _ _ _ _ _ _ h)

lemma invJ_foldl (os : ℚ) (tt' : TokenType) (prev cur : Tick) (l : ℚ)
    (tt : TokenType) :
    ∀ (LS : List ℚ) (s : EngineState), InvJ s l tt →
      InvJ (LS.foldl (levelStep os tt' prev cur) s) l tt := by
  intro LS
  induction LS with
  | nil => intro s h; exact h
  | cons l' rest ih =>
    intro s h
    exact ih _ (invJ_levelStep _ _ _ _ _ _ _ _ h)

lemma invJ_tickStep (os : ℚ) (s : EngineState) (pc : Tick × Tick) (l : ℚ)
    (tt : TokenType) (h : InvJ s l tt) : InvJ (tickStep os s pc) l tt := by
  unfold tickStep
  exact invJ_foldl _ _ _ _ _ _ _ _ (invJ_foldl _ _ _ _ _ _ _ _ h)

lemma invJ_runTicks (os : ℚ) (pcs : List (Tick × Tick)) (l : ℚ)
    (tt : TokenType) : InvJ (runTicks os pcs) l tt := by
  unfold runTicks
  have : ∀ (xs : List (Tick × Tick)) (s : EngineState), InvJ s l tt →
      InvJ (xs.foldl (tickStep os) s) l tt := by
    intro xs
    induction xs with
    | nil => intro s h; exact h
    | cons x rest ih => intro s h; exact ih _ (invJ_tickStep _ _ _ _ _ h)
  exact this _ _ (invJ_init l tt)

end Backend

namespace MarketMonitor

/-- The 15-minute-period slug (`MarketMonitor.getCurrent15MinSlug`).
`nowMs` is the Unix time in milliseconds; the process clock is UTC, so
`getMinutes` reads the UTC minute-of-hour and
`setMinutes(roundedMinutes, 0, 0)` rebuilds the start of the period as
`now - now % 3600000 + roundedMinutes * 60000`. -/
def getCurrent15MinSlug (cryptoShort : String) (nowMs : Nat) : String :=
  let minutes := nowMs / 60000 % 60
  let roundedMinutes := minutes / 15 * 15
  let periodStartMs := nowMs - nowMs % 3600000 + roundedMinutes * 60000
  let timestamp := periodStartMs / 1000
  cryptoShort ++ "-updown-15m-" ++ toString timestamp

/-- The two outcome-token identifiers of the current market
(`MarketInfo`; the unused descriptive fields are omitted). -/
structure MarketInfo where
  yesAssetId : String
  noAssetId : String
deriving DecidableEq

/-- One inbound price change (`PriceChange`); `best_bid`/`best_ask`
carry the value `parseFloat` produces from the wire string, with `none`
standing for a failed parse (NaN). -/
structure PriceChange where
  asset_id : String
  best_bid : Option ℚ
  best_ask : Option ℚ
deriving DecidableEq

/-- A stored quote snapshot (`TokenPrice`).  `bestAsk` is always a
number (the `|| 1` fallback applies); `bestBid` is `none` when a failed
parse stored NaN. -/
structure TokenPrice where
  bestAsk : ℚ
  bestBid : Option ℚ
deriving DecidableEq

/-- Monitor state relevant to quote-change handling. -/
structure MonitorState where
  curMarketInfo : Option MarketInfo
  yesPrice : Option TokenPrice
  noPrice : Option TokenPrice
deriving DecidableEq

/-- Rounded best ask with the source's fallback:
`Math.round(parseFloat(x) * 100) / 100 || 1` yields 1 when the parse
fails (NaN) or when the rounded value is 0 (both are falsy). -/
def askWithFallback (v : Option ℚ) : ℚ :=
  match v with
  | none => 1
  | some q =>
    let r := (jsRound (q * 100) : ℚ) / 100
    if r = 0 then 1 else r

/-- Rounded best bid, without any fallback; NaN (`none`) propagates. -/
def bidRounded (v : Option ℚ) : Option ℚ :=
  v.map (fun q => (jsRound (q * 100) : ℚ) / 100)

/-- JS `!==` on possibly-NaN numbers: NaN compares unequal to
everything, including itself. -/
def bidNe : Option ℚ → Option ℚ → Prop
  | some x, some y => x ≠ y
  | _, _ => True

instance (a b : Option ℚ) : Decidable (bidNe a b) := by
  unfold bidNe
  cases a <;> cases b <;> infer_instance

/-- The snapshot built from one inbound price change (lines 484-487). -/
def priceFromChange (pc : PriceChange) : TokenPrice :=
  { bestAsk := askWithFallback pc.best_ask, bestBid := bidRounded pc.best_bid }

/-- The source's change test (lines 488 and 498):
`!old || old.bestAsk !== upd.bestAsk || old.bestBid !== upd.bestBid`. -/
def snapshotChanged (old : Option TokenPrice) (upd : TokenPrice) : Prop :=
  match old with
  | none => True
  | some o => o.bestAsk ≠ upd.bestAsk ∨ bidNe o.bestBid upd.bestBid

instance (old : Option TokenPrice) (upd : TokenPrice) :
    Decidable (snapshotChanged old upd) := by
  unfold snapshotChanged
  cases old <;> infer_instance

/-- The handler's lookup of the price change affecting the current YES
token (line 479): `priceChange.asset_id === curMarketInfo?.yesAssetId`
is false whenever `curMarketInfo` is null. -/
def yesLookup (s : MonitorState) (priceChanges : List PriceChange) :
    Option PriceChange :=
  priceChanges.find? (fun pc =>
    match s.curMarketInfo with
    | some mi => decide (pc.asset_id = mi.yesAssetId)
    | none => false)

/-- The handler's lookup of the price change affecting the current NO
token (line 480). -/
def noLookup (s : MonitorState) (priceChanges : List PriceChange) :
    Option PriceChange :=
  priceChanges.find? (fun pc =>
    match s.curMarketInfo with
    | some mi => decide (pc.asset_id = mi.noAssetId)
    | none => false)

/-- The quote-change handler (`MarketMonitor.handlePriceChangeMessage`):
returns the updated state and whether a PRICE_CHANGE event was
emitted. -/
def handlePriceChangeMessage (s : MonitorState) (priceChanges : List PriceChange) :
    MonitorState × Bool :=
  let yesPC := yesLookup s priceChanges
  let noPC := noLookup s priceChanges
  let yesRes : Option TokenPrice × Bool :=
    match yesPC with
    | some pc =>
      let np := priceFromChange pc
      (some np, decide (snapshotChanged s.yesPrice np))
    | none => (s.yesPrice, false)
  let noRes : Option TokenPrice × Bool :=
    match noPC with
    | some pc =>
      let np := priceFromChange pc
      (some np, decide (snapshotChanged s.noPrice np))
    | none => (s.noPrice, false)
  ({ s with yesPrice := yesRes.1, noPrice := noRes.1 }, yesRes.2 || noRes.2)

end MarketMonitor

namespace Conn

/-- Automatic events delivered to a monitor after the user-facing calls:
the socket open/close callbacks and the reconnect timer. -/
inductive AutoEvent where
  | socketOpen
  | socketClose
  | timerFire
deriving DecidableEq

/-- Connection phase of the market quote WebSocket
(`MarketMonitor`).  `closePending` is the situation right after
`disconnect()` closed an open socket: the socket's close callback —
which `MarketMonitor.disconnect` never detaches — has not yet run. -/
inductive MarketPhase where
  | disconnected
  | connecting
  | subscribed
  | closePending
deriving DecidableEq

/-- `MarketMonitor.disconnect` from the subscribed state: closes the
socket (its close event stays pending) and clears local fields; other
phases are left unmodelled as the claims only concern an explicit
disconnect of a live subscription. -/
def marketDisconnect : MarketPhase → MarketPhase
  | .subscribed => .closePending
  | p => p

/-- Automatic transitions of the market quote connection.  The close
callback (MarketMonitor.ts `this.ws.on('close', ...)`) unconditionally
calls `this.connect()` — there is no should-reconnect guard and
`disconnect()` removes no listeners, so the callback also runs for a
close initiated by `disconnect()`. -/
def marketStep (p : MarketPhase) : AutoEvent → MarketPhase :=
  fun e =>
    match p, e with
    | .connecting, .socketOpen => .subscribed
    | .subscribed, .socketClose => .connecting
    | .closePending, .socketClose => .connecting
    | p, _ => p

/-- Connection phase of the user-channel WebSocket (`UserMonitor`):
`reconnectWait` is the 5-second reconnect timer window. -/
inductive UserPhase where
  | disconnected
  | connecting
  | connected
  | closePending
  | reconnectWait
deriving DecidableEq

/-- `UserMonitor` connection state: phase plus the `shouldReconnect`
flag. -/
structure UserConnState where
  phase : UserPhase
  shouldReconnect : Bool
deriving DecidableEq

/-- `UserMonitor.disconnect`: clears `shouldReconnect`, cancels any
reconnect timer, and closes the socket if one exists (its close event
stays pending, delivered to the still-attached close handler). -/
def userDisconnect (s : UserConnState) : UserConnState :=
  { phase :=
      match s.phase with
      | .connected => .closePending
      | .connecting => .closePending
      | .reconnectWait => .disconnected
      | p => p,
    shouldReconnect := false }

/-- Automatic transitions of the user-channel connection: the close
handler reconnects only when `shouldReconnect` is still set
(UserMonitor.ts lines 153-162), via the reconnect timer. -/
def userStep (s : UserConnState) : AutoEvent → UserConnState
  | .socketOpen =>
    match s.phase with
    | .connecting => { s with phase := .connected }
    | _ => s
  | .socketClose =>
    match s.phase with
    | .connected =>
      if s.shouldReconnect then { s with phase := .reconnectWait }
      else { s with phase := .disconnected }
    | .closePending =>
      if s.shouldReconnect then { s with phase := .reconnectWait }
      else { s with phase := .disconnected }
    | _ => s
  | .timerFire =>
    match s.phase with
    | .reconnectWait => { s with phase := .connecting }
    | _ => s

/-- Connection phase of the coin price WebSocket (`CoinMonitor`). -/
inductive CoinPhase where
  | disconnected
  | connecting
  | connected
  | closePending
deriving DecidableEq

/-- `CoinMonitor` connection state: phase plus whether the socket's
listeners are still attached (`disconnect()` calls
`removeAllListeners`). -/
structure CoinConnState where
  phase : CoinPhase
  listenersAttached : Bool
deriving DecidableEq

/-- `CoinMonitor.disconnect`: removes all listeners, closes the socket
if it is open or connecting, and clears fields. -/
def coinDisconnect (s : CoinConnState) : CoinConnState :=
  { phase :=
      match s.phase with
      | .connected => .closePending
      | .connecting => .closePending
      | p => p,
    listenersAttached := false }

/-- Automatic transitions of the coin price connection: its close
handler also calls `connect()` unconditionally (CoinMonitor.ts line 76),
but after `disconnect()` no listener remains to run it. -/
def coinStep (s : CoinConnState) : AutoEvent → CoinConnState
  | .socketOpen =>
    match s.phase, s.listenersAttached with
    | .connecting, true => { s with phase := .connected }
    | _, _ => s
  | .socketClose =>
    match s.phase, s.listenersAttached with
    | .connected, true => { s with phase := .connecting }
    | .closePending, true => { s with phase := .connecting }
    | .connected, false => { s with phase := .disconnected }
    | .closePending, false => { s with phase := .disconnected }
    | _, _ => s
  | .timerFire => s

end Conn

namespace SpecModelled

/-- Modelled from the spec: per-level state of the parameterised
grid-hedge evaluator.  The file `strategyCalculator1.ts` (imported by
the backend strategy controller and carrying the `enableRebuy`
parameter) is not present in the source tree, so §4.3 of the spec is
modelled directly. -/
structure LevelState where
  hasEntered : Bool
  hedgeFilled : Bool
  entries : Nat
  reEntries : Nat
deriving DecidableEq

/-- Modelled from the spec: one observation step of §4.3's crossing and
hedge-fill rule at one grid level.  `pc = ((prevTok, prevOpp),
(curTok, curOpp))`.  An entry fires when the token price ascends across
the level (previous strictly below, current at-or-above) and the level
has never been entered, or its most recent hedge has filled and
`enableRebuy` is set; the hedge sits at `max(0, maxTotalCost − level)`
on the opposite token and fills when the opposite price is
at-or-below it. -/
def levelStep (maxTotalCost level : ℚ) (enableRebuy : Bool)
    (st : LevelState) (pc : (ℚ × ℚ) × (ℚ × ℚ)) : LevelState :=
  let st1 :=
    if pc.1.1 < level ∧ level ≤ pc.2.1 ∧
        (¬ st.hasEntered = true ∨ (st.hedgeFilled = true ∧ enableRebuy = true)) then
      { st with hasEntered := true, hedgeFilled := false,
                entries := st.entries + 1,
                reEntries := st.reEntries + (if st.hasEntered then 1 else 0) }
    else st
  if st1.hasEntered = true ∧ ¬ st1.hedgeFilled = true ∧
      pc.2.2 ≤ max 0 (maxTotalCost - level) then
    { st1 with hedgeFilled := true }
  else st1

/-- Modelled from the spec: fold of `levelStep` over the chronological
(previous, current) observation pairs for one grid level. -/
def runLevel (maxTotalCost level : ℚ) (enableRebuy : Bool)
    (pcs : List ((ℚ × ℚ) × (ℚ × ℚ))) : LevelState :=
  pcs.foldl (levelStep maxTotalCost level enableRebuy)
    { hasEntered := false, hedgeFilled := false, entries := 0, reEntries := 0 }

end SpecModelled

/-- C6: for every wall-clock time and asset, the 15-minute slug equals
`{asset}-updown-15m-{s}` with `s` the Unix-seconds timestamp rounded
down to the 15-minute UTC boundary; hence the slug is constant within
any 15-minute window and changes exactly at each boundary. -/
theorem claim_C6_slug_15min :
    (∀ (asset : String) (t : Nat),
      MarketMonitor.getCurrent15MinSlug asset t =
        asset ++ "-updown-15m-" ++ toString (900 * (t / 1000 / 900))) ∧
    (∀ (asset : String) (t₁ t₂ : Nat), t₁ / 900000 = t₂ / 900000 →
      MarketMonitor.getCurrent15MinSlug asset t₁ =
        MarketMonitor.getCurrent15MinSlug asset t₂) ∧
    (∀ (asset : String) (t₁ t₂ : Nat), t₁ / 900000 ≠ t₂ / 900000 →
      MarketMonitor.getCurrent15MinSlug asset t₁ ≠
        MarketMonitor.getCurrent15MinSlug asset t₂) := by
  have key : ∀ t : Nat,
      (t - t % 3600000 + t / 60000 % 60 / 15 * 15 * 60000) / 1000 =
        900 * (t / 1000 / 900) := by
    intro t
    omega
  have unfolded : ∀ (asset : String) (t : Nat),
      MarketMonitor.getCurrent15MinSlug asset t =
        asset ++ "-updown-15m-" ++ toString (900 * (t / 1000 / 900)) := by
    intro asset t
    simp only [MarketMonitor.getCurrent15MinSlug]
    rw [key]
  refine ⟨unfolded, ?_, ?_⟩
  · intro asset t₁ t₂ h
    rw [unfolded, unfolded]
    have : t₁ / 1000 / 900 = t₂ / 1000 / 900 := by omega
    rw [this]
  · intro asset t₁ t₂ h heq
    apply h
    rw [unfolded, unfolded] at heq
    have hdata := congrArg String.data heq
    simp only [String.data_append] at hdata
    have h1 := List.append_cancel_left hdata
    have h3 : toString (900 * (t₁ / 1000 / 900)) = toString (900 * (t₂ / 1000 / 900)) :=
      String.ext h1
    have h4 := StringUtil.natToString_inj h3
    omega

/-- Witness for C6 at the spec's example: within the window starting at
Unix time 0, times 12:07:00 and 12:10:00 (in ms) share the slug, while
12:15:00 starts a new one. -/
theorem claim_C6_slug_15min_witness :
    MarketMonitor.getCurrent15MinSlug "btc" 420000 =
      MarketMonitor.getCurrent15MinSlug "btc" 600000 ∧
    MarketMonitor.getCurrent15MinSlug "btc" 420000 ≠
      MarketMonitor.getCurrent15MinSlug "btc" 900000 :=
  ⟨claim_C6_slug_15min.2.1 "btc" 420000 600000 (by decide),
   claim_C6_slug_15min.2.2 "btc" 420000 900000 (by decide)⟩

namespace Conn

lemma userStep_preserves (s : UserConnState) (e : AutoEvent)
    (h1 : s.shouldReconnect = false)
    (h2 : s.phase = .closePending ∨ s.phase = .disconnected) :
    (userStep s e).shouldReconnect = false ∧
      ((userStep s e).phase = .closePending ∨
        (userStep s e).phase = .disconnected) := by
  obtain ⟨p, r⟩ := s
  simp only at h1
  subst h1
  rcases h2 with h | h <;> simp only at h <;> subst h <;>
    cases e <;> simp [userStep]

lemma user_run_stays_down (evs : List AutoEvent) :
    ∀ s : UserConnState, s.shouldReconnect = false →
      (s.phase = .closePending ∨ s.phase = .disconnected) →
      ((evs.foldl userStep s).phase = .closePending ∨
        (evs.foldl userStep s).phase = .disconnected) := by
  induction evs with
  | nil => intro s _ h2; exact h2
  | cons e evs ih =>
    intro s h1 h2
    obtain ⟨g1, g2⟩ := userStep_preserves s e h1 h2
    exact ih _ g1 g2

lemma coinStep_preserves (s : CoinConnState) (e : AutoEvent)
    (h1 : s.listenersAttached = false)
    (h2 : s.phase = .closePending ∨ s.phase = .disconnected) :
    (coinStep s e).listenersAttached = false ∧
      ((coinStep s e).phase = .closePending ∨
        (coinStep s e).phase = .disconnected) := by
  obtain ⟨p, r⟩ := s
  simp only at h1
  subst h1
  rcases h2 with h | h <;> simp only at h <;> subst h <;>
    cases e <;> simp [coinStep]

lemma coin_run_stays_down (evs : List AutoEvent) :
    ∀ s : CoinConnState, s.listenersAttached = false →
      (s.phase = .closePending ∨ s.phase = .disconnected) →
      ((evs.foldl coinStep s).phase = .closePending ∨
        (evs.foldl coinStep s).phase = .disconnected) := by
  induction evs with
  | nil => intro s _ h2; exact h2
  | cons e evs ih =>
    intro s h1 h2
    obtain ⟨g1, g2⟩ := coinStep_preserves s e h1 h2
    exact ih _ g1 g2

end Conn

/-- C7 counterexample: the market-quote connection is not terminal after
an explicit `disconnect()` — when the closed socket's close event is
delivered, the still-attached close handler calls `connect()`
unconditionally and the connection re-enters `connecting`. -/
theorem claim_C7_counterexample :
    Conn.marketStep (Conn.marketDisconnect .subscribed) .socketClose =
      .connecting ∧ Conn.MarketPhase.connecting ≠ .disconnected := by
  exact ⟨rfl, by decide⟩

/-- C7 (amended): after an explicit `disconnect()`, the user-channel and
coin-price connections never automatically reconnect (for every sequence
of socket/timer events they stay closing/disconnected), but the
market-quote connection's close handler reconnects unconditionally, so
its explicit disconnect is followed by an automatic reconnect when the
socket's close event fires. -/
theorem claim_C7_disconnect :
    (Conn.marketStep (Conn.marketDisconnect .subscribed) .socketClose =
      .connecting) ∧
    (∀ evs : List Conn.AutoEvent,
      ((evs.foldl Conn.userStep
          (Conn.userDisconnect ⟨.connected, true⟩)).phase = .closePending ∨
        (evs.foldl Conn.userStep
          (Conn.userDisconnect ⟨.connected, true⟩)).phase = .disconnected)) ∧
    (∀ evs : List Conn.AutoEvent,
      ((evs.foldl Conn.coinStep
          (Conn.coinDisconnect ⟨.connected, true⟩)).phase = .closePending ∨
        (evs.foldl Conn.coinStep
          (Conn.coinDisconnect ⟨.connected, true⟩)).phase = .disconnected)) := by
  refine ⟨rfl, ?_, ?_⟩
  · intro evs
    exact Conn.user_run_stays_down evs _ rfl (Or.inl rfl)
  · intro evs
    exact Conn.coin_run_stays_down evs _ rfl (Or.inl rfl)

/-- C9: a price history with zero observed price points yields zero
profit, zero entries and no hedges from both grid-hedge evaluators, and
never an error (both are total functions that return their zero result
on the empty history). -/
theorem claim_C9_empty_history :
    (∀ maxTotalCost gridGap orderSize : ℚ,
      Frontend.calculateGridHedgeStrategy [] maxTotalCost gridGap orderSize =
        { totalProfit := 0, totalCost := 0, finalValue := 0,
          totalEntries := 0, totalHedgesFilled := 0 }) ∧
    (∀ orderSize : ℚ,
      Backend.calculateGridHedgeStrategy [] orderSize = 0 ∧
      (Backend.runEngine [] orderSize).positions = []) :=
  ⟨fun _ _ _ => rfl, fun _ => ⟨rfl, rfl⟩⟩

/-- C10: when the inbound price change for a current token has a
`best_ask` that fails to parse (NaN) or parses/rounds to 0, the stored
snapshot's bestAsk falls back to 1; `best_bid` has no fallback and a
zero best bid is stored as 0. -/
theorem claim_C10_ask_fallback (s : MarketMonitor.MonitorState)
    (msg : List MarketMonitor.PriceChange) (pc : MarketMonitor.PriceChange)
    (hfind : MarketMonitor.yesLookup s msg = some pc) :
    ((pc.best_ask = none ∨ pc.best_ask = some 0) →
      ∃ tp, (MarketMonitor.handlePriceChangeMessage s msg).1.yesPrice = some tp ∧
        tp.bestAsk = 1) ∧
    (pc.best_bid = some 0 →
      ∃ tp, (MarketMonitor.handlePriceChangeMessage s msg).1.yesPrice = some tp ∧
        tp.bestBid = some 0) := by
  have hstate : (MarketMonitor.handlePriceChangeMessage s msg).1.yesPrice =
      some (MarketMonitor.priceFromChange pc) := by
    simp only [MarketMonitor.handlePriceChangeMessage, hfind]
  constructor
  · intro hask
    refine ⟨MarketMonitor.priceFromChange pc, hstate, ?_⟩
    rcases hask with h | h <;>
      simp only [MarketMonitor.priceFromChange, MarketMonitor.askWithFallback, h,
        jsRound] <;> norm_num
  · intro hbid
    refine ⟨MarketMonitor.priceFromChange pc, hstate, ?_⟩
    simp only [MarketMonitor.priceFromChange, MarketMonitor.bidRounded, hbid,
      jsRound, Option.map_some]
    norm_num

/-- Witness for C10: a price change for the current YES token with
`best_ask = "0"` and `best_bid = "0"` stores bestAsk 1 and bestBid 0. -/
theorem claim_C10_ask_fallback_witness :
    (∃ tp, (MarketMonitor.handlePriceChangeMessage
        ⟨some ⟨"A", "B"⟩, none, none⟩
        [⟨"A", some 0, some 0⟩]).1.yesPrice = some tp ∧ tp.bestAsk = 1) ∧
    (∃ tp, (MarketMonitor.handlePriceChangeMessage
        ⟨some ⟨"A", "B"⟩, none, none⟩
        [⟨"A", some 0, some 0⟩]).1.yesPrice = some tp ∧ tp.bestBid = some 0) :=
  ⟨(claim_C10_ask_fallback ⟨some ⟨"A", "B"⟩, none, none⟩
      [⟨"A", some 0, some 0⟩] ⟨"A", some 0, some 0⟩
      (by with_unfolding_all decide)).1 (Or.inr rfl),
   (claim_C10_ask_fallback ⟨some ⟨"A", "B"⟩, none, none⟩
      [⟨"A", some 0, some 0⟩] ⟨"A", some 0, some 0⟩
      (by with_unfolding_all decide)).2 rfl⟩

/-- C1 (code bug): on the first observed grid level (no previous level)
the frontend computes the hedge price as `max(0, 100 − e − 3)` cents
regardless of `maxTotalCost`: with `maxTotalCost = 90` an entry at 55c
gets a hedge at 0.42 — on the opposite token — instead of the specified
`max(0, 90 − 55)/100 = 0.35`; the backend's `calculateHedgePrice`
matches the specified formula for its fixed `maxTotalCost` of 97c. -/
theorem claim_C1_first_entry_hedge_price :
    ((Frontend.processTokenRun [⟨1, 11/20, 1/2⟩] .up
        (Frontend.getGridLevels 5 90) 1 90).gridStates 55).orderPairs.map
      (fun p => (p.hedgeOrder.price, p.hedgeOrder.tokenType)) =
      [((42 : ℚ)/100, .down)] ∧
    (42 : ℚ)/100 ≠ max 0 ((90 : ℚ) - 55) / 100 ∧
    (∀ e : ℚ, Backend.calculateHedgePrice e = max 0 (97/100 - e)) := by
  refine ⟨by with_unfolding_all decide, by with_unfolding_all decide, ?_⟩
  intro e
  unfold Backend.calculateHedgePrice
  norm_num
  congr 1
  ring

namespace Backend

/-- The per-pair settlement contribution exactly as claim C2 words it:
`(hedgePrice − entryPrice) × size` when the hedge filled, independent of
outcome; otherwise `(1 − entryPrice) × size` if the entry token is the
eventual winner (strictly higher final price) and `−entryPrice × size`
otherwise.  This definition follows the claim's words, for comparison
with the code's settlement. -/
def entryTokenWins (finalUp finalDown : ℚ) : TokenType → Prop
  | .up => finalDown < finalUp
  | .down => finalUp < finalDown

instance (fu fd : ℚ) (tt : TokenType) : Decidable (entryTokenWins fu fd tt) := by
  cases tt <;> simp only [entryTokenWins] <;> infer_instance

/-- The claimed contribution case split on the eventual winner. -/
def claimContribution (finalUp finalDown : ℚ) (p : Position) : ℚ :=
  if p.hedgeFilled then (p.hedgePrice - p.entryPrice) * p.orderSize
  else if entryTokenWins finalUp finalDown p.tokenType then
    (1 - p.entryPrice) * p.orderSize
  else -p.entryPrice * p.orderSize

/-- The "total entry+hedge cost actually paid" of claim C2: every entry
is paid, a hedge only when it filled. -/
def claimCostPaid (ps : List Position) : ℚ :=
  (ps.map (fun p => p.entryPrice * p.orderSize +
    if p.hedgeFilled then p.hedgePrice * p.orderSize else 0)).sum

/-- Claim C2's asserted total profit: the sum of contributions minus the
total cost paid.  This definition follows the claim's words, for
comparison with the code's returned profit. -/
def claimC2Profit (history : List Tick) (orderSize : ℚ) : ℚ :=
  match history with
  | [] => 0
  | h :: t =>
    let s := runEngine (h :: t) orderSize
    let fin := (h :: t).getLast (List.cons_ne_nil h t)
    (s.positions.map (claimContribution fin.upTokenPrice fin.downTokenPrice)).sum
      - claimCostPaid s.positions

lemma foldl_add_eq_sum {α : Type} (f : α → ℚ) :
    ∀ (l : List α) (a : ℚ), l.foldl (fun acc x => acc + f x) a = a + (l.map f).sum := by
  intro l
  induction l with
  | nil => intro a; simp
  | cons x xs ih =>
    intro a
    simp only [List.foldl_cons, List.map_cons, List.sum_cons]
    rw [ih]
    ring

lemma positionValue_eq_claimContribution (fu fd : ℚ) (p : Position) :
    positionValue fu fd p = claimContribution fu fd p := by
  cases htt : p.tokenType <;>
    simp [positionValue, claimContribution, entryTokenWins, htt, gt_iff_lt]

end Backend

set_option maxRecDepth 100000 in
/-- C2 counterexample: on the history
`[(up 0.50, down 0.50), (up 0.55-and-0.60-crossing 0.60, down 0.40)]`
with order size 1, the backend evaluator returns 0.27 — the bare sum of
the claimed contributions — whereas the claim's
"sum of contributions minus the total entry+hedge cost actually paid"
is −1.30. -/
theorem claim_C2_counterexample :
    Backend.calculateGridHedgeStrategy [⟨1, 1/2, 1/2⟩, ⟨2, 3/5, 2/5⟩] 1 = 27/100 ∧
    Backend.claimC2Profit [⟨1, 1/2, 1/2⟩, ⟨2, 3/5, 2/5⟩] 1 = -13/10 ∧
    ((27 : ℚ)/100) ≠ -13/10 := by
  refine ⟨by with_unfolding_all decide, by with_unfolding_all decide,
    by with_unfolding_all decide⟩

/-- C2 (amended): for every recorded position the contribution is as
claimed — `(hedgePrice − entryPrice) × size` when its hedge filled,
`(1 − entryPrice) × size` when unfilled and its token ends strictly
higher, `−entryPrice × size` otherwise — and the backend evaluator's
returned total profit equals the plain sum of these contributions, with
no further subtraction of the entry+hedge cost (the contributions are
already net of cost). -/
theorem claim_C2_settlement (h : Backend.Tick) (t : List Backend.Tick)
    (orderSize : ℚ) :
    Backend.calculateGridHedgeStrategy (h :: t) orderSize =
      ((Backend.runEngine (h :: t) orderSize).positions.map
        (Backend.claimContribution
          (((h :: t).getLast (List.cons_ne_nil h t)).upTokenPrice)
          (((h :: t).getLast (List.cons_ne_nil h t)).downTokenPrice))).sum := by
  simp only [Backend.calculateGridHedgeStrategy]
  rw [Backend.foldl_add_eq_sum]
  rw [funext (Backend.positionValue_eq_claimContribution
    (((h :: t).getLast (List.cons_ne_nil h t)).upTokenPrice)
    (((h :: t).getLast (List.cons_ne_nil h t)).downTokenPrice))]
  simp

namespace SpecModelled

lemma levelStep_reEntries_no_rebuy (maxTotalCost level : ℚ)
    (st : LevelState) (pc : (ℚ × ℚ) × (ℚ × ℚ)) :
    (levelStep maxTotalCost level false st pc).reEntries = st.reEntries := by
  unfold levelStep
  by_cases hc : pc.1.1 < level ∧ level ≤ pc.2.1 ∧
      (¬ st.hasEntered = true ∨ (st.hedgeFilled = true ∧ false = true))
  · have hne : st.hasEntered = false := by
      rcases hc.2.2 with h | h
      · cases he : st.hasEntered
        · rfl
        · exact absurd he h
      · cases h.2
    rw [if_pos hc]
    dsimp only
    split <;> simp [hne]
  · rw [if_neg hc]
    dsimp only
    split <;> rfl

lemma runLevel_no_rebuy (maxTotalCost level : ℚ)
    (obs : List ((ℚ × ℚ) × (ℚ × ℚ))) :
    (runLevel maxTotalCost level false obs).reEntries = 0 := by
  unfold runLevel
  have : ∀ (xs : List ((ℚ × ℚ) × (ℚ × ℚ))) (st : LevelState),
      st.reEntries = 0 →
      (xs.foldl (levelStep maxTotalCost level false) st).reEntries = 0 := by
    intro xs
    induction xs with
    | nil => intro st h; exact h
    | cons x rest ih =>
      intro st h
      exact ih _ ((levelStep_reEntries_no_rebuy maxTotalCost level st x).trans h)
  exact this obs _ rfl

end SpecModelled

set_option maxRecDepth 200000 in
/-- C3 counterexample: on the price sequence up = 0.50 then 0.56 the UP
token ascends across the 55c grid level (previous strictly below,
current at-or-above, level never entered), yet the frontend evaluator —
which recognises a crossing only when a rounded price exactly equals a
grid level — records no entry at all. -/
theorem claim_C3_counterexample :
    Backend.crossesLevelFromBelow (1/2) (14/25) (11/20) ∧
    ((Frontend.processTokenRun [⟨1, 1/2, 1/2⟩, ⟨2, 14/25, 11/25⟩] .up
        (Frontend.getGridLevels 5 97) 1 97).gridStates 55).orderPairs = [] ∧
    (Frontend.calculateGridHedgeStrategy [⟨1, 1/2, 1/2⟩, ⟨2, 14/25, 11/25⟩]
        97 5 1).totalEntries = 0 := by
  refine ⟨by with_unfolding_all decide, by with_unfolding_all decide,
    by with_unfolding_all decide⟩

/-- C3 (amended): in the backend evaluator, one tick appends an entry at
a grid level for a token exactly when the token's previous observed
price is strictly below the level and its current price is at-or-above
it, subject to the re-entry gate — in particular never on a descending
crossing.  (The frontend evaluator detects crossings only through exact
grid-level hits; see the counterexample.) -/
theorem claim_C3_entry_crossing (os : ℚ) (s : Backend.EngineState)
    (prev cur : Backend.Tick) (l : ℚ) (tt : TokenType)
    (hl : l ∈ Backend.GRID_LEVELS) :
    (Backend.filterAt l tt (Backend.tickStep os s (prev, cur)).positions).length =
      (Backend.filterAt l tt s.positions).length +
        (if Backend.crossesLevelFromBelow (prev.price tt) (cur.price tt) l ∧
            Backend.entryAllowed (s.statesFor tt l) then 1 else 0) :=
  Backend.tickStep_count os s prev cur l tt hl

set_option maxRecDepth 200000 in
/-- Witness for C3 at the 55c level on a concrete ascending tick from
the initial state. -/
theorem claim_C3_entry_crossing_witness :
    (Backend.filterAt (11/20) .up (Backend.tickStep 1 Backend.initEngineState
        (⟨1, 1/2, 1/2⟩, ⟨2, 3/5, 2/5⟩)).positions).length =
      (Backend.filterAt (11/20) .up Backend.initEngineState.positions).length +
        (if Backend.crossesLevelFromBelow
              ((⟨1, 1/2, 1/2⟩ : Backend.Tick).price .up)
              ((⟨2, 3/5, 2/5⟩ : Backend.Tick).price .up) (11/20) ∧
            Backend.entryAllowed (Backend.initEngineState.statesFor .up (11/20))
          then 1 else 0) :=
  claim_C3_entry_crossing 1 Backend.initEngineState ⟨1, 1/2, 1/2⟩ ⟨2, 3/5, 2/5⟩
    (11/20) .up (by with_unfolding_all decide)

set_option maxRecDepth 200000 in
/-- C4 counterexample: the frontend evaluator violates the re-entry
rule.  On UP prices 0.60, 0.55, 0.60, 0.55, 0.60 (DOWN dipping to 0.30
at the second tick so the first hedge at level 60 fills), the level-60
`hedgeFilled` flag is set after the first fill and never cleared, so the
fifth tick fires a third entry while the second entry's hedge (the most
recent order pair after four ticks) is still unfilled. -/
theorem claim_C4_counterexample :
    ¬ (∀ (priceData : List Frontend.PriceData) (k : Nat) (l : ℚ)
          (q : Frontend.OrderPair),
        (((Frontend.processTokenRun (priceData.take k) .up
            (Frontend.getGridLevels 5 97) 1 97).gridStates l).orderPairs).length <
          (((Frontend.processTokenRun (priceData.take (k + 1)) .up
            (Frontend.getGridLevels 5 97) 1 97).gridStates l).orderPairs).length →
        (((Frontend.processTokenRun (priceData.take k) .up
            (Frontend.getGridLevels 5 97) 1 97).gridStates l).orderPairs).getLast? =
          some q →
        q.hedgeOrder.isFilled = true) := by
  intro hclaim
  have hres := hclaim
    [⟨1, 3/5, 1/2⟩, ⟨2, 11/20, 3/10⟩, ⟨3, 3/5, 1/2⟩, ⟨4, 11/20, 1/2⟩, ⟨5, 3/5, 1/2⟩]
    4 60 ⟨⟨3/5, 3, 1, .up, true⟩, ⟨37/100, none, 1, .down, false⟩⟩
    (by with_unfolding_all decide) (by with_unfolding_all decide)
  exact absurd hres (by decide)

/-- C4 (amended): in the backend evaluator a tick that appends a
position at a grid level, when the level already has positions, finds
the most recent one hedge-filled (re-entry only after the hedge fills);
and in the spec-modelled `enableRebuy` evaluator (the parameterised
calculator imported by the strategy controller is absent from the
source tree), `enableRebuy = false` means no re-entry ever happens.
The frontend evaluator violates the first part (see the
counterexample). -/
theorem claim_C4_reentry (os : ℚ) (pcs : List (Backend.Tick × Backend.Tick))
    (pc : Backend.Tick × Backend.Tick) (l : ℚ) (tt : TokenType)
    (hl : l ∈ Backend.GRID_LEVELS) (q : Backend.Position)
    (hgrow : (Backend.filterAt l tt (Backend.runTicks os pcs).positions).length <
      (Backend.filterAt l tt (Backend.runTicks os (pcs ++ [pc])).positions).length)
    (hlast : (Backend.filterAt l tt (Backend.runTicks os pcs).positions).getLast? =
      some q) :
    q.hedgeFilled = true ∧
    (∀ (maxTotalCost level : ℚ) (obs : List ((ℚ × ℚ) × (ℚ × ℚ))),
      (SpecModelled.runLevel maxTotalCost level false obs).reEntries = 0) := by
  refine ⟨?_, fun m lv obs => SpecModelled.runLevel_no_rebuy m lv obs⟩
  have hfold : Backend.runTicks os (pcs ++ [pc]) =
      Backend.tickStep os (Backend.runTicks os pcs) pc := by
    unfold Backend.runTicks
    rw [List.foldl_append]
    rfl
  obtain ⟨prev, cur⟩ := pc
  rw [hfold, Backend.tickStep_count os _ prev cur l tt hl] at hgrow
  by_cases hc : Backend.crossesLevelFromBelow (prev.price tt) (cur.price tt) l ∧
      Backend.entryAllowed ((Backend.runTicks os pcs).statesFor tt l)
  · have hJ := Backend.invJ_runTicks os pcs l tt
    have hne : Backend.filterAt l tt (Backend.runTicks os pcs).positions ≠ [] := by
      intro he
      rw [he] at hlast
      simp at hlast
    have hhe : ((Backend.runTicks os pcs).statesFor tt l).hasEntry = true := by
      cases he : ((Backend.runTicks os pcs).statesFor tt l).hasEntry
      · exact absurd (hJ.1 he) hne
      · rfl
    have hff : ((Backend.runTicks os pcs).statesFor tt l).hedgeFilled = true := by
      rcases hc.2 with h | h
      · exact absurd hhe h
      · exact h
    exact hJ.2 hff q hlast
  · rw [if_neg hc] at hgrow
    omega

set_option maxRecDepth 400000 in
/-- Witness for C4: after the history up 0.50, 0.60, 0.50 (down moving
0.50, 0.40, 0.50) the 55c level holds one filled position; the next
tick re-crosses 55c and appends a second one. -/
theorem claim_C4_reentry_witness :
    ({ gridLevel := 11/20, tokenType := .up, entryPrice := 11/20,
       hedgePrice := 21/50, hedgeFilled := true, orderSize := 1,
       entryTimestamp := 2, hedgeFilledTimestamp := some 2 } :
         Backend.Position).hedgeFilled = true ∧
    (∀ (maxTotalCost level : ℚ) (obs : List ((ℚ × ℚ) × (ℚ × ℚ))),
      (SpecModelled.runLevel maxTotalCost level false obs).reEntries = 0) :=
  claim_C4_reentry 1
    (Backend.tickPairs [⟨1, 1/2, 1/2⟩, ⟨2, 3/5, 2/5⟩, ⟨3, 1/2, 1/2⟩])
    (⟨3, 1/2, 1/2⟩, ⟨4, 3/5, 2/5⟩) (11/20) .up
    (by with_unfolding_all decide)
    ({ gridLevel := 11/20, tokenType := .up, entryPrice := 11/20,
       hedgePrice := 21/50, hedgeFilled := true, orderSize := 1,
       entryTimestamp := 2, hedgeFilledTimestamp := some 2 })
    (by with_unfolding_all decide)
    (by with_unfolding_all decide)

namespace Frontend

lemma entryPhase_getElem (gridLevels : List ℚ) (orderSize maxTotalCost : ℚ)
    (tokenType : TokenType) (s : TokenRunState) (d : PriceData) (l : ℚ)
    (j : Nat) (p : OrderPair)
    (hp : (s.gridStates l).orderPairs[j]? = some p) :
    ((entryPhase gridLevels orderSize maxTotalCost tokenType s d).gridStates l).orderPairs[j]? =
      some p := by
  unfold entryPhase
  rcases currentGridLevelVar gridLevels tokenType s d with _ | cur <;>
    rcases s.previousGridLevel with _ | prev <;> dsimp only
  · exact hp
  · exact hp
  · split
    · by_cases hlc : l = cur
      · subst hlc
        dsimp only
        rw [Function.update_same]
        obtain ⟨hj, _⟩ := List.getElem?_eq_some.mp hp
        show ((s.gridStates l).orderPairs ++ [_])[j]? = some p
        rw [List.getElem?_append, if_pos hj]
        exact hp
      · dsimp only
        rw [Function.update_noteq hlc]
        exact hp
    · exact hp
  · split
    · split
      · by_cases hlc : l = cur
        · subst hlc
          dsimp only
          rw [Function.update_same]
          obtain ⟨hj, _⟩ := List.getElem?_eq_some.mp hp
          show ((s.gridStates l).orderPairs ++ [_])[j]? = some p
          rw [List.getElem?_append, if_pos hj]
          exact hp
        · dsimp only
          rw [Function.update_noteq hlc]
          exact hp
      · exact hp
    · exact hp

lemma processPricePoint_gridStates (gridLevels : List ℚ)
    (orderSize maxTotalCost : ℚ) (tokenType : TokenType) (s : TokenRunState)
    (d : PriceData) (l : ℚ) (hl : l ∈ gridLevels) :
    (processPricePoint gridLevels orderSize maxTotalCost tokenType s d).gridStates l =
      fillHedges (jsRound (oppositePriceOf tokenType d * 100)) d.timestamp
        ((entryPhase gridLevels orderSize maxTotalCost tokenType s d).gridStates l) := by
  unfold processPricePoint
  dsimp only
  rw [if_pos hl]

end Frontend

set_option maxRecDepth 400000 in
/-- C5 counterexample: the backend evaluator fills a hedge only when the
opposite price crosses the hedge price between consecutive observations.
With DOWN constant at 0.30 and UP crossing 55c and 60c, both hedge
orders (at 0.42 and 0.37) stay unfilled forever even though the DOWN
price is at-or-below them at the very observation that created them. -/
theorem claim_C5_counterexample :
    ((Backend.runEngine [⟨1, 1/2, 3/10⟩, ⟨2, 3/5, 3/10⟩] 1).positions.map
      (fun p => (p.gridLevel, p.hedgePrice, p.hedgeFilled, p.hedgeFilledTimestamp))) =
      [(11/20, 21/50, false, none), (3/5, 37/100, false, none)] ∧
    ((3 : ℚ)/10 ≤ 21/50) ∧ ((3 : ℚ)/10 ≤ 37/100) := by
  refine ⟨by with_unfolding_all decide, by with_unfolding_all decide,
    by with_unfolding_all decide⟩

/-- C5 (amended): the frontend evaluator obeys the claim.  At every
observation, an existing unfilled hedge order whose opposite rounded
price is at-or-below the hedge price is marked filled with that
observation's timestamp; an unfilled hedge above the opposite price is
left untouched; and a filled hedge never changes again (filled at most
once, never unfilled).  The backend evaluator fills only on crossings
between consecutive observations (see the counterexample). -/
theorem claim_C5_hedge_fill (gridLevels : List ℚ) (orderSize maxTotalCost : ℚ)
    (tokenType : TokenType) (s : Frontend.TokenRunState) (d : Frontend.PriceData)
    (l : ℚ) (hl : l ∈ gridLevels) (j : Nat) (p : Frontend.OrderPair)
    (hp : (s.gridStates l).orderPairs[j]? = some p) :
    (p.hedgeOrder.isFilled = false →
      jsRound (Frontend.oppositePriceOf tokenType d * 100) ≤
        jsRound (p.hedgeOrder.price * 100) →
      ((Frontend.processPricePoint gridLevels orderSize maxTotalCost tokenType
          s d).gridStates l).orderPairs[j]? =
        some { p with hedgeOrder :=
          { (p.hedgeOrder) with isFilled := true, timestamp := some d.timestamp } }) ∧
    (p.hedgeOrder.isFilled = false →
      jsRound (p.hedgeOrder.price * 100) <
        jsRound (Frontend.oppositePriceOf tokenType d * 100) →
      ((Frontend.processPricePoint gridLevels orderSize maxTotalCost tokenType
          s d).gridStates l).orderPairs[j]? = some p) ∧
    (p.hedgeOrder.isFilled = true →
      ((Frontend.processPricePoint gridLevels orderSize maxTotalCost tokenType
          s d).gridStates l).orderPairs[j]? = some p) := by
  have hentry := Frontend.entryPhase_getElem gridLevels orderSize maxTotalCost
    tokenType s d l j p hp
  have hfill : ((Frontend.processPricePoint gridLevels orderSize maxTotalCost
      tokenType s d).gridStates l).orderPairs[j]? =
      Option.map (fun q =>
        if Frontend.fillsNow (jsRound (Frontend.oppositePriceOf tokenType d * 100)) q then
          { q with hedgeOrder :=
            { q.hedgeOrder with isFilled := true, timestamp := some d.timestamp } }
        else q)
        (((Frontend.entryPhase gridLevels orderSize maxTotalCost tokenType s
          d).gridStates l).orderPairs[j]?) := by
    rw [Frontend.processPricePoint_gridStates gridLevels orderSize maxTotalCost
      tokenType s d l hl]
    unfold Frontend.fillHedges
    dsimp only
    rw [List.getElem?_map]
  rw [hentry, Option.map_some'] at hfill
  refine ⟨?_, ?_, ?_⟩
  · intro hunf hle
    rw [hfill, if_pos]
    exact ⟨by simp [hunf], hle⟩
  · intro hunf hgt
    rw [hfill, if_neg]
    rintro ⟨-, hle⟩
    omega
  · intro hfil
    rw [hfill, if_neg]
    rintro ⟨hne, -⟩
    exact hne hfil

set_option maxRecDepth 400000 in
/-- Witness for C5: after an entry at 55c (hedge at 0.42 on DOWN), an
observation with DOWN at 0.40 fills the hedge with that observation's
timestamp. -/
theorem claim_C5_hedge_fill_witness :
    ((Frontend.processPricePoint (Frontend.getGridLevels 5 97) 1 97 .up
        (Frontend.processTokenRun [⟨1, 11/20, 1/2⟩] .up
          (Frontend.getGridLevels 5 97) 1 97)
        ⟨2, 3/5, 2/5⟩).gridStates 55).orderPairs[0]? =
      some { entryOrder := ⟨11/20, 1, 1, .up, false⟩,
             hedgeOrder := ⟨21/50, some 2, 1, .down, true⟩ } :=
  (claim_C5_hedge_fill (Frontend.getGridLevels 5 97) 1 97 .up
    (Frontend.processTokenRun [⟨1, 11/20, 1/2⟩] .up
      (Frontend.getGridLevels 5 97) 1 97)
    ⟨2, 3/5, 2/5⟩ 55 (by with_unfolding_all decide) 0
    { entryOrder := ⟨11/20, 1, 1, .up, false⟩,
      hedgeOrder := ⟨21/50, none, 1, .down, false⟩ }
    (by with_unfolding_all decide)).1 rfl (by with_unfolding_all decide)


namespace MarketMonitor

lemma TokenPrice.eq_of (a b : TokenPrice) (h1 : a.bestAsk = b.bestAsk)
    (h2 : a.bestBid = b.bestBid) : a = b := by
  cases a
  cases b
  simp_all

end MarketMonitor

/-- C8 counterexample: an inbound change for the current YES token whose
`best_ask` parses to 0 rounds to 0, which differs from the stored
bestAsk of 1 — by the claim a PRICE_CHANGE must be emitted — but the
code compares fallback-adjusted values (0 becomes 1), sees no change,
and emits nothing. -/
theorem claim_C8_counterexample :
    (MarketMonitor.handlePriceChangeMessage
      ⟨some ⟨"A", "B"⟩, some ⟨1, some (1/2)⟩, none⟩
      [⟨"A", some (1/2), some 0⟩]).2 = false ∧
    MarketMonitor.bidRounded (some (0 : ℚ)) = some 0 ∧
    ((some (0 : ℚ) : Option ℚ) ≠ some 1) ∧
    (MarketMonitor.MonitorState.yesPrice
      ⟨some ⟨"A", "B"⟩, some ⟨1, some (1/2)⟩, none⟩).map
        MarketMonitor.TokenPrice.bestAsk = some 1 := by
  refine ⟨by with_unfolding_all decide, by with_unfolding_all decide,
    by with_unfolding_all decide, by with_unfolding_all decide⟩

/-- C8 (amended): quote-change handling in the market monitor:
(1) a message containing no change for either current token leaves the
state unchanged and emits nothing (non-current identifiers are
discarded); (2) when nothing is emitted the snapshot state is
observably unchanged (duplicate suppression); (3) a PRICE_CHANGE is
emitted exactly when an affected current token had no stored snapshot
yet or its fallback-adjusted rounded bestAsk/bestBid differs from the
stored value (`best_ask` falling back to 1 when it fails to parse or
rounds to 0). -/
theorem claim_C8_quote_handling (s : MarketMonitor.MonitorState)
    (msg : List MarketMonitor.PriceChange) :
    (MarketMonitor.yesLookup s msg = none → MarketMonitor.noLookup s msg = none →
      MarketMonitor.handlePriceChangeMessage s msg = (s, false)) ∧
    ((MarketMonitor.handlePriceChangeMessage s msg).2 = false →
      (MarketMonitor.handlePriceChangeMessage s msg).1 = s) ∧
    ((MarketMonitor.handlePriceChangeMessage s msg).2 = true ↔
      ((∃ pc, MarketMonitor.yesLookup s msg = some pc ∧
          MarketMonitor.snapshotChanged s.yesPrice (MarketMonitor.priceFromChange pc)) ∨
        (∃ pc, MarketMonitor.noLookup s msg = some pc ∧
          MarketMonitor.snapshotChanged s.noPrice (MarketMonitor.priceFromChange pc)))) := by
  have hyes_eq : ∀ (pc : MarketMonitor.PriceChange),
      ¬ MarketMonitor.snapshotChanged s.yesPrice (MarketMonitor.priceFromChange pc) →
      s.yesPrice = some (MarketMonitor.priceFromChange pc) := by
    intro pc hns
    rcases hsy : s.yesPrice with _ | o
    · rw [hsy] at hns
      exact absurd trivial hns
    · rw [hsy] at hns
      unfold MarketMonitor.snapshotChanged at hns
      rw [not_or] at hns
      obtain ⟨hask, hbid⟩ := hns
      congr 1
      refine MarketMonitor.TokenPrice.eq_of o _ (not_not.mp hask) ?_
      rcases hob : o.bestBid with _ | x <;>
        rcases hnb : (MarketMonitor.priceFromChange pc).bestBid with _ | y
      · rfl
      · rw [hob, hnb] at hbid
        exact absurd trivial hbid
      · rw [hob, hnb] at hbid
        exact absurd trivial hbid
      · rw [hob, hnb] at hbid
        simp only [MarketMonitor.bidNe, ne_eq, not_not] at hbid
        rw [hbid]
  have hno_eq : ∀ (pc : MarketMonitor.PriceChange),
      ¬ MarketMonitor.snapshotChanged s.noPrice (MarketMonitor.priceFromChange pc) →
      s.noPrice = some (MarketMonitor.priceFromChange pc) := by
    intro pc hns
    rcases hsy : s.noPrice with _ | o
    · rw [hsy] at hns
      exact absurd trivial hns
    · rw [hsy] at hns
      unfold MarketMonitor.snapshotChanged at hns
      rw [not_or] at hns
      obtain ⟨hask, hbid⟩ := hns
      congr 1
      refine MarketMonitor.TokenPrice.eq_of o _ (not_not.mp hask) ?_
      rcases hob : o.bestBid with _ | x <;>
        rcases hnb : (MarketMonitor.priceFromChange pc).bestBid with _ | y
      · rfl
      · rw [hob, hnb] at hbid
        exact absurd trivial hbid
      · rw [hob, hnb] at hbid
        exact absurd trivial hbid
      · rw [hob, hnb] at hbid
        simp only [MarketMonitor.bidNe, ne_eq, not_not] at hbid
        rw [hbid]
  refine ⟨?_, ?_, ?_⟩
  · intro hy hn
    simp only [MarketMonitor.handlePriceChangeMessage, hy, hn]
    rfl
  · intro hfalse
    rcases hy : MarketMonitor.yesLookup s msg with _ | pcy <;>
      rcases hn : MarketMonitor.noLookup s msg with _ | pcn <;>
      simp only [MarketMonitor.handlePriceChangeMessage, hy, hn] at hfalse ⊢
    all_goals first
      | rfl
      | (rw [← hno_eq _ (by simpa using hfalse)])
      | (rw [← hyes_eq _ (by simpa using hfalse)])
      | (simp only [Bool.or_eq_false_iff, decide_eq_false_iff_not] at hfalse
         rw [← hyes_eq _ hfalse.1, ← hno_eq _ hfalse.2])
  · rcases hy : MarketMonitor.yesLookup s msg with _ | pcy <;>
      rcases hn : MarketMonitor.noLookup s msg with _ | pcn <;>
      simp only [MarketMonitor.handlePriceChangeMessage, hy, hn] <;>
      simp

/-- Witness for C8: a change for a non-current asset is discarded with
no emission, and a duplicate (after fallback) change for the current
token leaves the snapshot state unchanged. -/
theorem claim_C8_quote_handling_witness :
    MarketMonitor.handlePriceChangeMessage ⟨some ⟨"A", "B"⟩, none, none⟩
      [⟨"C", some 1, some 1⟩] = (⟨some ⟨"A", "B"⟩, none, none⟩, false) ∧
    (MarketMonitor.handlePriceChangeMessage
      ⟨some ⟨"A", "B"⟩, some ⟨1, some (1/2)⟩, none⟩
      [⟨"A", some (1/2), some 0⟩]).1 =
      ⟨some ⟨"A", "B"⟩, some ⟨1, some (1/2)⟩, none⟩ :=
  ⟨(claim_C8_quote_handling ⟨some ⟨"A", "B"⟩, none, none⟩
      [⟨"C", some 1, some 1⟩]).1
      (by with_unfolding_all decide) (by with_unfolding_all decide),
   (claim_C8_quote_handling ⟨some ⟨"A", "B"⟩, some ⟨1, some (1/2)⟩, none⟩
      [⟨"A", some (1/2), some 0⟩]).2.1
      (by with_unfolding_all decide)⟩

end PolymarketTrading
